import Mathlib

/-!
Verification development for the SureStock checkout and inventory-reservation
core.  The definitions below are a shallow embedding of the TypeScript source:
the Mongo collections become association lists inside a `DB` record, each
service method becomes a pure function on `DB`, and a Mongo multi-document
transaction becomes an `Except`-valued auxiliary function whose error branch
returns the original state (abort = no visible writes).
-/

namespace SureStock

/-! ## Association-list primitives modelling the Mongo collections

`findA` models `findOne`/`findById` (first matching document), `updateA`
models `updateOne`/`findOneAndUpdate` (the first matching document is
rewritten), and `removeA` models `deleteOne` on a unique key.
-/

def findA {β : Type} (l : List (String × β)) (k : String) : Option β :=
  (l.find? (fun kv => kv.1 = k)).map (·.2)

def updateA {β : Type} : List (String × β) → String → (β → β) → List (String × β)
  | [], _, _ => []
  | kv :: rest, k, f =>
    if kv.1 = k then (kv.1, f kv.2) :: rest else kv :: updateA rest k f

def removeA {β : Type} (l : List (String × β)) (k : String) : List (String × β) :=
  l.filter (fun kv => kv.1 ≠ k)

theorem findA_cons {β : Type} (kv : String × β) (rest : List (String × β)) (q : String) :
    findA (kv :: rest) q = if kv.1 = q then some kv.2 else findA rest q := by
  by_cases h : kv.1 = q
  · simp [findA, List.find?_cons_of_pos, h]
  · simp [findA, List.find?_cons_of_neg, h]

theorem findA_updateA_self {β : Type} (l : List (String × β)) (k : String) (f : β → β) :
    findA (updateA l k f) k = (findA l k).map f := by
  induction l with
  | nil => rfl
  | cons kv rest ih =>
    by_cases h : kv.1 = k
    · simp [updateA, if_pos h, findA_cons, h]
    · simp [updateA, if_neg h, findA_cons, h, ih]

theorem findA_updateA_ne {β : Type} (l : List (String × β)) (k q : String) (f : β → β)
    (h : q ≠ k) : findA (updateA l k f) q = findA l q := by
  induction l with
  | nil => rfl
  | cons kv rest ih =>
    by_cases hk : kv.1 = k
    · have hq : kv.1 ≠ q := fun hc => h (hc ▸ hk ▸ rfl)
      simp [updateA, if_pos hk, findA_cons, hq, hk, Ne.symm h]
    · have hu : updateA (kv :: rest) k f = kv :: updateA rest k f := by
        simp [updateA, hk]
      by_cases hq : kv.1 = q
      · rw [hu, findA_cons, findA_cons, if_pos hq, if_pos hq]
      · rw [hu, findA_cons, findA_cons, if_neg hq, if_neg hq, ih]

theorem mem_updateA {β : Type} {l : List (String × β)} {k : String} {f : β → β}
    {kv : String × β} (h : kv ∈ updateA l k f) :
    kv ∈ l ∨ ∃ kv0 ∈ l, kv = (kv0.1, f kv0.2) := by
  induction l with
  | nil => simp [updateA] at h
  | cons hd rest ih =>
    by_cases hk : hd.1 = k
    · simp only [updateA, if_pos hk, List.mem_cons] at h
      rcases h with h | h
      · exact Or.inr ⟨hd, List.mem_cons_self .., h⟩
      · exact Or.inl (List.mem_cons_of_mem _ h)
    · simp only [updateA, if_neg hk, List.mem_cons] at h
      rcases h with h | h
      · exact Or.inl (h ▸ List.mem_cons_self ..)
      · rcases ih h with h1 | ⟨kv0, h0, h1⟩
        · exact Or.inl (List.mem_cons_of_mem _ h1)
        · exact Or.inr ⟨kv0, List.mem_cons_of_mem _ h0, h1⟩

theorem findA_mem {β : Type} {l : List (String × β)} {k : String} {v : β}
    (h : findA l k = some v) : (k, v) ∈ l := by
  induction l with
  | nil => simp [findA] at h
  | cons kv rest ih =>
    rw [findA_cons] at h
    by_cases hk : kv.1 = k
    · rw [if_pos hk] at h
      have hv : kv.2 = v := by simpa using h
      have : kv = (k, v) := by
        cases kv
        simp only at hk hv
        simp [hk, hv]
      exact this ▸ List.mem_cons_self ..
    · rw [if_neg hk] at h
      exact List.mem_cons_of_mem _ (ih h)

theorem mem_removeA {β : Type} {l : List (String × β)} {k : String}
    {kv : String × β} (h : kv ∈ removeA l k) : kv ∈ l :=
  List.mem_of_mem_filter h

/-! ## Data model (src/backend/src/models and the schema parts of the source) -/

/-- A product document: per-product counters `stock` and `reserved` plus the
catalogue snapshot fields copied into reservations and orders. -/
structure Product where
  sku : String
  name : String
  priceCents : Int
  stock : Int
  reserved : Int
  lowStockThreshold : Int
  image : String
deriving DecidableEq, Repr

inductive ReservationStatus where
  | active
  | consumed
  | expired
  | cancelled
deriving DecidableEq, Repr

/-- A reservation/order line snapshot `(productId, sku, name, priceCents, qty)`. -/
structure LineItem where
  productId : String
  sku : String
  name : String
  priceCents : Int
  qty : Int
deriving DecidableEq, Repr

/-- An address document, modelled as field-name/value pairs; a field is falsy
for the validator when it is absent or the empty string. -/
abbrev Address := List (String × String)

structure Reservation where
  userId : String
  status : ReservationStatus
  items : List LineItem
  address : Address
  shippingMethod : String
  expiresAt : Int
deriving DecidableEq, Repr

structure OrderRec where
  userId : String
  status : String
  items : List LineItem
  address : Address
  shippingMethod : String
  totalCents : Int
deriving DecidableEq, Repr

structure CartItem where
  productId : String
  qty : Int
deriving DecidableEq, Repr

inductive IdemStatus where
  | in_progress
  | succeeded
  | failed
deriving DecidableEq, Repr

structure ConfirmResult where
  orderId : String
  status : String
deriving DecidableEq, Repr

structure IdemRecord where
  userId : String
  endpoint : String
  key : String
  requestHash : String
  status : IdemStatus
  response : Option ConfirmResult
deriving DecidableEq, Repr

structure LowStockAlertRec where
  productId : String
  stockAfter : Int
  threshold : Int
  processed : Bool
deriving DecidableEq, Repr

deriving instance DecidableEq for Except

/-- HTTP-tagged application error (`AppError(status, message)` in the source). -/
structure AppError where
  statusCode : Nat
  message : String
deriving DecidableEq, Repr

/-- The persistent state: the five collections of the spec plus carts, with
counters supplying fresh `_id` values for orders and reservations. -/
structure DB where
  products : List (String × Product)
  reservations : List (String × Reservation)
  orders : List (String × OrderRec)
  carts : List (String × List CartItem)
  idem : List IdemRecord
  alerts : List LowStockAlertRec
  nextOrderId : Nat
  nextReservationId : Nat
deriving DecidableEq, Repr

/-! ## Request fingerprint (src/backend/src/utils/hash.ts)

`requestHash(payload)` in the source is
`sha256hex(JSON.stringify(payload, Object.keys(payload).sort()))`.
The replacer-array form of `JSON.stringify` serializes object properties in
replacer order and, at every nesting level, keeps only properties whose names
occur in the replacer list.  `sha256hex` models the external
`crypto.createHash('sha256').update(s).digest('hex')` primitive by the
standard SHA-256 algorithm over the UTF-8 bytes of the string.
-/

/-- Request payload values: the JSON fragment the two sides exchange. -/
inductive Json where
  | null
  | bool (b : Bool)
  | num (n : Int)
  | str (s : String)
  | arr (elems : List Json)
  | obj (fields : List (String × Json))

mutual

/-- Structural size of a JSON value, used as serialization fuel. -/
def jsonSize : Json → Nat
  | .null => 1
  | .bool _ => 1
  | .num _ => 1
  | .str _ => 1
  | .arr es => 1 + jsonListSize es
  | .obj fs => 1 + jsonFieldsSize fs

def jsonListSize : List Json → Nat
  | [] => 0
  | j :: js => 1 + jsonSize j + jsonListSize js

def jsonFieldsSize : List (String × Json) → Nat
  | [] => 0
  | kv :: rest => 1 + jsonSize kv.2 + jsonFieldsSize rest

end

/-- UTF-8 encoding of one character, as byte values. -/
def encodeChar (c : Char) : List Nat :=
  let n := c.toNat
  if n < 0x80 then [n]
  else if n < 0x800 then
    [0xC0 ||| (n >>> 6), 0x80 ||| (n &&& 0x3F)]
  else if n < 0x10000 then
    [0xE0 ||| (n >>> 12), 0x80 ||| ((n >>> 6) &&& 0x3F), 0x80 ||| (n &&& 0x3F)]
  else
    [0xF0 ||| (n >>> 18), 0x80 ||| ((n >>> 12) &&& 0x3F),
     0x80 ||| ((n >>> 6) &&& 0x3F), 0x80 ||| (n &&& 0x3F)]

/-- UTF-8 bytes of a string, matching Node's `Buffer.from(s, 'utf8')`. -/
def utf8Bytes (s : String) : List Nat :=
  s.data.flatMap encodeChar

def add32 (a b : Nat) : Nat := (a + b) % 4294967296

def rotr32 (x n : Nat) : Nat := ((x >>> n) ||| (x <<< (32 - n))) % 4294967296

def sigma0 (x : Nat) : Nat := (rotr32 x 7) ^^^ (rotr32 x 18) ^^^ (x >>> 3)

def sigma1 (x : Nat) : Nat := (rotr32 x 17) ^^^ (rotr32 x 19) ^^^ (x >>> 10)

def bigSigma0 (x : Nat) : Nat := (rotr32 x 2) ^^^ (rotr32 x 13) ^^^ (rotr32 x 22)

def bigSigma1 (x : Nat) : Nat := (rotr32 x 6) ^^^ (rotr32 x 11) ^^^ (rotr32 x 25)

def shaK : List Nat :=
  [1116352408, 1899447441, 3049323471, 3921009573, 961987163, 1508970993,
   2453635748, 2870763221, 3624381080, 310598401, 607225278, 1426881987,
   1925078388, 2162078206, 2614888103, 3248222580, 3835390401, 4022224774,
   264347078, 604807628, 770255983, 1249150122, 1555081692, 1996064986,
   2554220882, 2821834349, 2952996808, 3210313671, 3336571891, 3584528711,
   113926993, 338241895, 666307205, 773529912, 1294757372, 1396182291,
   1695183700, 1986661051, 2177026350, 2456956037, 2730485921, 2820302411,
   3259730800, 3345764771, 3516065817, 3600352804, 4094571909, 275423344,
   430227734, 506948616, 659060556, 883997877, 958139571, 1322822218,
   1537002063, 1747873779, 1955562222, 2024104815, 2227730452, 2361852424,
   2428436474, 2756734187, 3204031479, 3329325298]

def shaH0 : List Nat :=
  [1779033703, 3144134277, 1013904242, 2773480762,
   1359893119, 2600822924, 528734635, 1541459225]

/-- Big-endian 8-byte encoding of a natural number. -/
def be64 (n : Nat) : List Nat :=
  [(n >>> 56) &&& 255, (n >>> 48) &&& 255, (n >>> 40) &&& 255, (n >>> 32) &&& 255,
   (n >>> 24) &&& 255, (n >>> 16) &&& 255, (n >>> 8) &&& 255, n &&& 255]

/-- SHA-256 padding: a 0x80 byte, zeros to 56 mod 64, then the bit length. -/
def padMessage (msg : List Nat) : List Nat :=
  let withOne := msg ++ [0x80]
  let zeros := (64 - (withOne.length + 8) % 64) % 64
  withOne ++ List.replicate zeros 0 ++ be64 (msg.length * 8)

/-- Group bytes into big-endian 32-bit words. -/
def bytesToWords : List Nat → List Nat
  | b0 :: b1 :: b2 :: b3 :: rest =>
    ((b0 <<< 24) ||| (b1 <<< 16) ||| (b2 <<< 8) ||| b3) :: bytesToWords rest
  | _ => []

/-- Split a byte list into 64-byte blocks; the fuel is an upper bound on the
number of blocks and keeps the recursion structural. -/
def chunksOf64 : Nat → List Nat → List (List Nat)
  | 0, _ => []
  | _, [] => []
  | fuel + 1, l => l.take 64 :: chunksOf64 fuel (l.drop 64)

/-- One step of the message-schedule extension (words 16..63). -/
def extendStep (w : List Nat) : List Nat :=
  let n := w.length
  w ++ [add32 (add32 (sigma1 (w.get! (n - 2))) (w.get! (n - 7)))
          (add32 (sigma0 (w.get! (n - 15))) (w.get! (n - 16)))]

def extendSchedule : Nat → List Nat → List Nat
  | 0, w => w
  | fuel + 1, w => extendSchedule fuel (extendStep w)

/-- One compression round; the state is the eight working variables. -/
def shaRound (st : List Nat) (kw : Nat × Nat) : List Nat :=
  match st with
  | [a, b, c, d, e, f, g, h] =>
    let ch := (e &&& f) ^^^ ((4294967295 ^^^ e) &&& g)
    let t1 := add32 (add32 (add32 h (bigSigma1 e)) (add32 ch kw.1)) kw.2
    let t2 := add32 (bigSigma0 a) ((a &&& b) ^^^ (a &&& c) ^^^ (b &&& c))
    [add32 t1 t2, a, b, c, add32 d t1, e, f, g]
  | st => st

/-- Process one 64-byte block starting from hash state `h`. -/
def shaBlock (h : List Nat) (block : List Nat) : List Nat :=
  let w := extendSchedule 48 (bytesToWords block)
  let st := (w.zip shaK).foldl shaRound h
  (h.zip st).map (fun p => add32 p.1 p.2)

def hex8 (n : Nat) : String :=
  String.mk ([28, 24, 20, 16, 12, 8, 4, 0].map (fun s => Nat.digitChar ((n >>> s) &&& 15)))

/-- Hex digest of the SHA-256 of the UTF-8 bytes of a string; models the
`crypto` module's `createHash('sha256').update(s).digest('hex')`. -/
def sha256hex (s : String) : String :=
  let bytes := padMessage (utf8Bytes s)
  let final := (chunksOf64 (bytes.length + 1) bytes).foldl shaBlock shaH0
  (final.map hex8).foldl (fun acc t => acc ++ t) ""

/-- JSON string quoting as in ECMA-262 QuoteJSONString. -/
def quoteChar (c : Char) : String :=
  if c = '\"' then "\\\""
  else if c = '\\' then "\\\\"
  else if c = (Char.ofNat 8) then "\\b"
  else if c = (Char.ofNat 12) then "\\f"
  else if c = '\n' then "\\n"
  else if c = (Char.ofNat 13) then "\\r"
  else if c = '\t' then "\\t"
  else if c.toNat < 32 then
    "\\u00" ++ String.mk [Nat.digitChar ((c.toNat >>> 4) &&& 15), Nat.digitChar (c.toNat &&& 15)]
  else String.mk [c]

def quoteJsonString (s : String) : String :=
  "\"" ++ (s.data.map quoteChar).foldl (fun acc t => acc ++ t) "" ++ "\""

def commaJoin : List String → String
  | [] => ""
  | [s] => s
  | s :: rest => s ++ "," ++ commaJoin rest

/-- Lexicographic less-or-equal on character lists by code point. -/
def charsLeb : List Char → List Char → Bool
  | [], _ => true
  | _ :: _, [] => false
  | c1 :: r1, c2 :: r2 =>
    if c1.toNat < c2.toNat then true
    else if c2.toNat < c1.toNat then false
    else charsLeb r1 r2

/-- Lexicographic string order (code points), the order in which ObjectId hex
strings and JSON keys are compared by the sorts in the source. -/
def strLe (a b : String) : Prop := charsLeb a.data b.data = true

instance : DecidableRel strLe :=
  fun a b => inferInstanceAs (Decidable (charsLeb a.data b.data = true))

instance : DecidableRel (fun a b : String => strLe a b) :=
  fun a b => inferInstanceAs (Decidable (charsLeb a.data b.data = true))

/-- The properties of an object that survive a replacer list: for each name in
the list, in list order, its value when the object has that property. -/
def selectProps (props : List String) (fields : List (String × Json)) : List (String × Json) :=
  props.filterMap (fun p => (findA fields p).map (fun v => (p, v)))

/-- `JSON.stringify(v, props)` with a replacer array: objects at every level
are filtered to (and ordered by) the replacer names.  The fuel argument keeps
the recursion structural; any fuel at least the size of the value yields the
serialization. -/
def serValF (props : List String) : Nat → Json → String
  | 0, _ => ""
  | fuel + 1, j =>
    match j with
    | .null => "null"
    | .bool b => cond b "true" "false"
    | .num n => toString n
    | .str s => quoteJsonString s
    | .arr es => "[" ++ commaJoin (es.map (serValF props fuel)) ++ "]"
    | .obj fs =>
      "\x7b" ++
        commaJoin ((selectProps props fs).map
          (fun kv => quoteJsonString kv.1 ++ ":" ++ serValF props fuel kv.2)) ++
      "\x7d"

/-- `JSON.stringify(payload, Object.keys(payload).sort())` for an object
payload: the replacer list is the lexicographically sorted top-level key list. -/
def canonicalStringify (payload : List (String × Json)) : String :=
  let props := List.insertionSort strLe (payload.map (·.1))
  serValF props (jsonSize (Json.obj payload)) (Json.obj payload)

/-- `requestHash` from src/backend/src/utils/hash.ts. -/
def requestHash (payload : List (String × Json)) : String :=
  sha256hex (canonicalStringify payload)

/-! ## Error helpers

`AppError` carries the HTTP status directly in the source
(`throw new AppError(409, ...)`).  The `errors.badRequest` / `errors.conflict`
/ `errors.notFound` helpers live in `src/middleware/errors`, which is not part
of the provided sources; their status codes are modelled from the spec error
taxonomy (Validation=400, NotFound for products in reserve=400 per spec §4.2,
Insufficient/conflict=409, NotFound=404).
-/

def badRequest (msg : String) : AppError := ⟨400, msg⟩

def conflict (msg : String) : AppError := ⟨409, msg⟩

def notFound (msg : String) : AppError := ⟨404, msg⟩

/-! ## Sorting by productId

Each multi-product loop sorts its lines by productId
(`localeCompare` on ObjectId hex strings = lexicographic string order).
-/

instance : DecidableRel (fun a b : CartItem => strLe a.productId b.productId) :=
  fun a b => inferInstanceAs (Decidable (charsLeb a.productId.data b.productId.data = true))

instance : DecidableRel (fun a b : LineItem => strLe a.productId b.productId) :=
  fun a b => inferInstanceAs (Decidable (charsLeb a.productId.data b.productId.data = true))

def sortCartItems (items : List CartItem) : List CartItem :=
  List.insertionSort (fun a b : CartItem => strLe a.productId b.productId) items

def sortLineItems (items : List LineItem) : List LineItem :=
  List.insertionSort (fun a b : LineItem => strLe a.productId b.productId) items

/-! ## Inventory Store primitives

The three conditional atomic updates of spec §4.1, exactly as issued by the
source: each is a single guarded `updateOne`/`findOneAndUpdate` whose filter
is the guard and whose effect is the `$inc`.  `none` models
`matchedCount === 0` / a `null` result (product absent or guard unmet).
-/

/-- The guarded increment issued by `ReservationService.createReservation`:
filter `stock - reserved >= qty`, update `reserved += qty`. -/
def tryIncrementReserved (products : List (String × Product)) (pid : String) (n : Int) :
    Option (List (String × Product)) :=
  match findA products pid with
  | none => none
  | some p =>
    if p.stock - p.reserved ≥ n then
      some (updateA products pid (fun q => { q with reserved := q.reserved + n }))
    else none

/-- The guarded joint decrement issued by `OrderService.executeConfirm`:
filter `reserved >= qty AND stock >= qty`, update both `-= qty`; returns the
updated collection, the post-update stock, and the threshold. -/
def tryCommit (products : List (String × Product)) (pid : String) (n : Int) :
    Option (List (String × Product) × Int × Int) :=
  match findA products pid with
  | none => none
  | some p =>
    if p.reserved ≥ n ∧ p.stock ≥ n then
      some (updateA products pid (fun q => { q with reserved := q.reserved - n, stock := q.stock - n }),
            p.stock - n, p.lowStockThreshold)
    else none

/-- The guarded decrement issued by `GCService.expireReservations`:
filter `reserved >= qty`, update `reserved -= qty`. -/
def releaseReserved (products : List (String × Product)) (pid : String) (n : Int) :
    Option (List (String × Product)) :=
  match findA products pid with
  | none => none
  | some p =>
    if p.reserved ≥ n then
      some (updateA products pid (fun q => { q with reserved := q.reserved - n }))
    else none

/-! ## Reserve (ReservationService.createReservation) -/

structure ReserveResponse where
  reservationId : String
  expiresAt : Int
deriving DecidableEq, Repr

def allowedShippingMethods : List String := ["standard", "express"]

def requiredAddressFields : List String := ["name", "phone", "line1", "city", "state", "pincode"]

/-- The fields the address validator reports as missing (absent or empty). -/
def missingAddressFields (address : Address) : List String :=
  requiredAddressFields.filter (fun f => ((findA address f).getD "") = "")

/-- The per-line body of the reserve transaction: fetch the product, check
availability, issue the guarded increment, and push the line snapshot.  Any
failure aborts with the error the source throws there. -/
def reserveLoop (products : List (String × Product)) :
    List CartItem → Except AppError (List (String × Product) × List LineItem)
  | [] => .ok (products, [])
  | item :: rest =>
    match findA products item.productId with
    | none => .error (badRequest ("Product " ++ item.productId ++ " not found"))
    | some p =>
      if p.stock - p.reserved < item.qty then
        .error (conflict ("Insufficient stock for " ++ p.name))
      else
        match tryIncrementReserved products item.productId item.qty with
        | none => .error (conflict ("Unable to reserve " ++ p.name))
        | some products2 =>
          match reserveLoop products2 rest with
          | .error e => .error e
          | .ok (ps, snaps) =>
            .ok (ps, ⟨item.productId, p.sku, p.name, p.priceCents, item.qty⟩ :: snaps)

/-- Ten minutes in milliseconds: `RESERVATION_TTL_MINUTES = 10` applied by
`addMinutes(now(), 10)`. -/
def reservationTTLMillis : Int := 600000

/-- The body of `createReservation` up to the transaction commit; an error is
an aborted transaction. -/
def createReservationAux (db : DB) (now : Int) (userId : String) (address : Address)
    (shippingMethod : String) : Except AppError (ReserveResponse × DB) :=
  if allowedShippingMethods.contains shippingMethod then
    match missingAddressFields address with
    | _ :: _ => .error (badRequest "Missing required address fields")
    | [] =>
      match findA db.carts userId with
      | none => .error (badRequest "Cart is empty")
      | some items =>
        if items.isEmpty then .error (badRequest "Cart is empty")
        else
          match reserveLoop db.products (sortCartItems items) with
          | .error e => .error e
          | .ok (products2, snaps) =>
            let expiresAt := now + reservationTTLMillis
            let rid := "R" ++ toString db.nextReservationId
            .ok (⟨rid, expiresAt⟩,
              { db with
                products := products2
                reservations :=
                  (rid, ⟨userId, .active, snaps, address, shippingMethod, expiresAt⟩) :: db.reservations
                nextReservationId := db.nextReservationId + 1 })
  else .error (badRequest "Invalid shipping method")

/-- `ReservationService.createReservation`: the whole call runs inside
`session.withTransaction`, so on any thrown error no write is visible. -/
def createReservation (db : DB) (now : Int) (userId : String) (address : Address)
    (shippingMethod : String) : Except AppError ReserveResponse × DB :=
  match createReservationAux db now userId address shippingMethod with
  | .ok (resp, db2) => (.ok resp, db2)
  | .error e => (.error e, db)

/-! ## Confirm (OrderService) -/

def confirmEndpoint : String := "/api/checkout/confirm"

/-- The fingerprint `requestHash({ reservationId })` computed by
`confirmOrder`. -/
def confirmRequestHash (reservationId : String) : String :=
  requestHash [("reservationId", Json.str reservationId)]

def findIdem (idem : List IdemRecord) (userId endpoint key : String) : Option IdemRecord :=
  idem.find? (fun r => r.userId = userId ∧ r.endpoint = endpoint ∧ r.key = key)

/-- `updateOne` on the idempotency collection: rewrite the first record
matching `(userId, endpoint, key)`. -/
def updateIdem (idem : List IdemRecord) (userId endpoint key : String)
    (f : IdemRecord → IdemRecord) : List IdemRecord :=
  match idem with
  | [] => []
  | r :: rest =>
    if r.userId = userId ∧ r.endpoint = endpoint ∧ r.key = key then f r :: rest
    else r :: updateIdem rest userId endpoint key f

/-- `OrderService.checkIdempotency`: replay a succeeded record with matching
hash (its cached response, which is `null`-falsy when absent), reject a hash
mismatch with 409, and otherwise let the attempt proceed. -/
def checkIdempotency (idem : List IdemRecord) (userId endpoint key hash : String) :
    Except AppError (Option ConfirmResult) :=
  match findIdem idem userId endpoint key with
  | none => .ok none
  | some existing =>
    if existing.status = .succeeded ∧ existing.requestHash = hash then .ok existing.response
    else if existing.requestHash ≠ hash then
      .error ⟨409, "Idempotency key reused for different payload"⟩
    else .ok none

/-- The per-line commit loop of `executeConfirm`, collecting the post-update
stock/threshold pairs that fell strictly below threshold. -/
def commitLoop (products : List (String × Product)) :
    List LineItem →
    Except AppError (List (String × Product) × List (String × Int × Int))
  | [] => .ok (products, [])
  | item :: rest =>
    match tryCommit products item.productId item.qty with
    | none => .error ⟨409, "Insufficient stock for " ++ item.name⟩
    | some (products2, stockAfter, threshold) =>
      match commitLoop products2 rest with
      | .error e => .error e
      | .ok (ps, lows) =>
        .ok (ps, (if stockAfter < threshold then [(item.productId, stockAfter, threshold)] else []) ++ lows)

/-- The body of the `executeConfirm` transaction; an error is an aborted
transaction. -/
def executeConfirmAux (db : DB) (userId reservationId : String) (now : Int) :
    Except AppError (ConfirmResult × DB) :=
  match findA db.reservations reservationId with
  | none => .error ⟨404, "Reservation not found"⟩
  | some resv =>
    if resv.userId ≠ userId then .error ⟨403, "Reservation does not belong to user"⟩
    else if resv.status ≠ .active then .error ⟨410, "Reservation is not active"⟩
    else if resv.expiresAt ≤ now then .error ⟨410, "Reservation has expired"⟩
    else
      match commitLoop db.products (sortLineItems resv.items) with
      | .error e => .error e
      | .ok (products2, lows) =>
        let totalCents := resv.items.foldl (fun sum item => sum + item.priceCents * item.qty) 0
        let orderId := toString db.nextOrderId
        .ok (⟨orderId, "created"⟩,
          { db with
            products := products2
            orders := (orderId, ⟨userId, "created", resv.items, resv.address, resv.shippingMethod, totalCents⟩) :: db.orders
            reservations := updateA db.reservations reservationId (fun r => { r with status := .consumed })
            carts := removeA db.carts userId
            alerts := db.alerts ++ lows.map (fun l => ⟨l.1, l.2.1, l.2.2, false⟩)
            nextOrderId := db.nextOrderId + 1 })

/-- `OrderService.executeConfirm`: transactional, so the error branch leaves
the state untouched. -/
def executeConfirm (db : DB) (userId reservationId : String) (now : Int) :
    Except AppError ConfirmResult × DB :=
  match executeConfirmAux db userId reservationId now with
  | .ok (r, db2) => (.ok r, db2)
  | .error e => (.error e, db)

/-- The error Mongo raises when `IdempotencyKey.create` violates the unique
compound index on `(userId, endpoint, key)` declared in the IdempotencyKey
schema; the transport surfaces it as an opaque 500. -/
def duplicateKeyError : AppError :=
  ⟨500, "E11000 duplicate key error: userId endpoint key"⟩

/-- `OrderService.confirmOrder`: idempotency check, unconditional insert of an
`in_progress` record (rejected by the unique index when a record with the same
`(userId, endpoint, key)` already exists), the transactional confirm, and the
final `updateOne` to `succeeded`/`failed` outside that transaction. -/
def confirmOrder (db : DB) (now : Int) (userId reservationId idempotencyKey : String) :
    Except AppError ConfirmResult × DB :=
  let hash := confirmRequestHash reservationId
  match checkIdempotency db.idem userId confirmEndpoint idempotencyKey hash with
  | .error e => (.error e, db)
  | .ok (some r) => (.ok r, db)
  | .ok none =>
    match findIdem db.idem userId confirmEndpoint idempotencyKey with
    | some _ => (.error duplicateKeyError, db)
    | none =>
      let db1 := { db with idem := ⟨userId, confirmEndpoint, idempotencyKey, hash, .in_progress, none⟩ :: db.idem }
      match executeConfirm db1 userId reservationId now with
      | (.ok result, db2) =>
        let markSucceeded := fun r : IdemRecord =>
          { r with status := IdemStatus.succeeded, response := some result }
        (.ok result,
         { db2 with idem := updateIdem db2.idem userId confirmEndpoint idempotencyKey markSucceeded })
      | (.error e, db2) =>
        let markFailed := fun r : IdemRecord => { r with status := IdemStatus.failed }
        (.error e,
         { db2 with idem := updateIdem db2.idem userId confirmEndpoint idempotencyKey markFailed })

/-! ## Expiry sweeper (GCService.expireReservations) -/

/-- The sweeper's selection query `find({status:'active', expiresAt: {lte: now}})`. -/
def sweepSelect (db : DB) (now : Int) : List (String × Reservation) :=
  db.reservations.filter
    (fun kv => decide (kv.2.status = ReservationStatus.active ∧ kv.2.expiresAt ≤ now))

/-- The per-item release loop of one sweep transaction: guarded decrement,
skipping (with a log) lines whose guard fails; counts released lines. -/
def releaseLoop (products : List (String × Product)) :
    List LineItem → List (String × Product) × Nat
  | [] => (products, 0)
  | item :: rest =>
    match releaseReserved products item.productId item.qty with
    | none => releaseLoop products rest
    | some products2 =>
      let (ps, c) := releaseLoop products2 rest
      (ps, c + 1)

/-- One sweep transaction over a previously fetched reservation document:
release each line of the fetched snapshot, then
`updateOne({_id: rid}, {status: 'expired'})` — the filter carries no
`status: 'active'` clause, so it matches the document by id alone. -/
def sweepOne (db : DB) (rid : String) (fetched : Reservation) : DB × Nat :=
  let (products2, released) := releaseLoop db.products (sortLineItems fetched.items)
  ({ db with
      products := products2
      reservations := updateA db.reservations rid (fun r => { r with status := .expired }) },
   released)

/-- One full sweeper cycle: select, then process each selected document in its
own transaction, accumulating `(expiredCount, releasedItems)`. -/
def expireReservations (db : DB) (now : Int) : DB × Nat × Nat :=
  (sweepSelect db now).foldl
    (fun acc kv =>
      let (db2, released) := sweepOne acc.1 kv.1 kv.2
      (db2, acc.2.1 + 1, acc.2.2 + released))
    (db, 0, 0)

/-! ## Cart upsert (CartService.addToCart) -/

/-- The findIndex/assign/push step of `addToCart`, rendered recursively: the
first line with the product id gets its quantity overwritten; when none
exists the new line is pushed at the end. -/
def upsertCartItem : List CartItem → String → Int → List CartItem
  | [], pid, qty => [⟨pid, qty⟩]
  | it :: rest, pid, qty =>
    if it.productId = pid then ⟨pid, qty⟩ :: rest
    else it :: upsertCartItem rest pid qty

/-- `CartService.addToCart`: validate the quantity, require the product,
create the cart when absent, otherwise upsert the line. -/
def addToCart (db : DB) (userId productId : String) (qty : Int) :
    Except AppError Unit × DB :=
  if qty < 1 ∨ qty > 5 then (.error (badRequest "Quantity must be between 1 and 5"), db)
  else
    match findA db.products productId with
    | none => (.error (badRequest "Product not found"), db)
    | some _ =>
      match findA db.carts userId with
      | none => (.ok (), { db with carts := (userId, [⟨productId, qty⟩]) :: db.carts })
      | some items =>
        (.ok (), { db with carts := updateA db.carts userId (fun _ => upsertCartItem items productId qty) })

/-! ## Invariants

`ProdEntryInv` is availability invariant I1 for one product; the well-formed
conditions on cart and reservation lines record the schema bound
`qty ∈ [1, 5]` (Cart schema validators; spec §3 for reservation lines, whose
schema file is not among the provided sources).
-/

def ProdEntryInv (p : Product) : Prop := 0 ≤ p.reserved ∧ p.reserved ≤ p.stock

def ProdInv (products : List (String × Product)) : Prop :=
  ∀ kv ∈ products, ProdEntryInv kv.2

def CartItemWF (it : CartItem) : Prop := 1 ≤ it.qty ∧ it.qty ≤ 5

def CartsWF (carts : List (String × List CartItem)) : Prop :=
  ∀ kv ∈ carts, ∀ it ∈ kv.2, CartItemWF it

def LineWF (it : LineItem) : Prop := 1 ≤ it.qty ∧ it.qty ≤ 5

def ResWF (rs : List (String × Reservation)) : Prop :=
  ∀ kv ∈ rs, ∀ it ∈ kv.2.items, LineWF it

def DBInv (db : DB) : Prop :=
  ProdInv db.products ∧ CartsWF db.carts ∧ ResWF db.reservations

instance (p : Product) : Decidable (ProdEntryInv p) :=
  inferInstanceAs (Decidable (0 ≤ p.reserved ∧ p.reserved ≤ p.stock))

instance (l : List (String × Product)) : Decidable (ProdInv l) :=
  inferInstanceAs (Decidable (∀ kv ∈ l, ProdEntryInv kv.2))

instance (it : CartItem) : Decidable (CartItemWF it) :=
  inferInstanceAs (Decidable (1 ≤ it.qty ∧ it.qty ≤ 5))

instance (l : List (String × List CartItem)) : Decidable (CartsWF l) :=
  inferInstanceAs (Decidable (∀ kv ∈ l, ∀ it ∈ kv.2, CartItemWF it))

instance (it : LineItem) : Decidable (LineWF it) :=
  inferInstanceAs (Decidable (1 ≤ it.qty ∧ it.qty ≤ 5))

instance (l : List (String × Reservation)) : Decidable (ResWF l) :=
  inferInstanceAs (Decidable (∀ kv ∈ l, ∀ it ∈ kv.2.items, LineWF it))

instance (db : DB) : Decidable (DBInv db) :=
  inferInstanceAs (Decidable (_ ∧ _ ∧ _))

/-- An entry of the updated collection is either an old entry or the image of
the first entry carrying the key, which is what `findA` returns. -/
theorem mem_updateA_strong {β : Type} {l : List (String × β)} {k : String} {f : β → β}
    {kv : String × β} (h : kv ∈ updateA l k f) :
    kv ∈ l ∨ ∃ v, findA l k = some v ∧ kv = (k, f v) := by
  induction l with
  | nil => simp [updateA] at h
  | cons hd rest ih =>
    by_cases hk : hd.1 = k
    · simp only [updateA, if_pos hk, List.mem_cons] at h
      rcases h with h | h
      · refine Or.inr ⟨hd.2, ?_, by rw [h, hk]⟩
        rw [findA_cons, if_pos hk]
      · exact Or.inl (List.mem_cons_of_mem _ h)
    · simp only [updateA, if_neg hk, List.mem_cons] at h
      rcases h with h | h
      · exact Or.inl (h ▸ List.mem_cons_self ..)
      · rcases ih h with h1 | ⟨v, hv, h1⟩
        · exact Or.inl (List.mem_cons_of_mem _ h1)
        · refine Or.inr ⟨v, ?_, h1⟩
          rw [findA_cons, if_neg hk, hv]

theorem prodInv_updateA {ps : List (String × Product)} {pid : String} {f : Product → Product}
    (hinv : ProdInv ps)
    (hf : ∀ p, findA ps pid = some p → ProdEntryInv (f p)) :
    ProdInv (updateA ps pid f) := by
  intro kv hkv
  rcases mem_updateA_strong hkv with h | ⟨v, hv, h⟩
  · exact hinv kv h
  · rw [h]
    exact hf v hv

/-! ### The three guarded updates preserve I1 -/

theorem tryIncrementReserved_inv {ps ps2 : List (String × Product)} {pid : String} {n : Int}
    (hinv : ProdInv ps) (hn : 0 ≤ n)
    (h : tryIncrementReserved ps pid n = some ps2) : ProdInv ps2 := by
  unfold tryIncrementReserved at h
  split at h
  · cases h
  · rename_i p hfind
    split at h
    · rename_i hg
      cases h
      refine prodInv_updateA hinv ?_
      intro q hq
      rw [hfind] at hq
      cases hq
      have hpi := hinv (pid, p) (findA_mem hfind)
      refine ⟨?_, ?_⟩
      · show 0 ≤ p.reserved + n
        linarith [hpi.1]
      · show p.reserved + n ≤ p.stock
        linarith
    · cases h

theorem tryCommit_inv {ps ps2 : List (String × Product)} {pid : String} {n sa thr : Int}
    (hinv : ProdInv ps)
    (h : tryCommit ps pid n = some (ps2, sa, thr)) : ProdInv ps2 := by
  unfold tryCommit at h
  split at h
  · cases h
  · rename_i p hfind
    split at h
    · rename_i hg
      injection h with h1
      injection h1 with h1 _
      subst h1
      refine prodInv_updateA hinv ?_
      intro q hq
      rw [hfind] at hq
      cases hq
      have hpi := hinv (pid, p) (findA_mem hfind)
      refine ⟨?_, ?_⟩
      · show 0 ≤ p.reserved - n
        linarith [hg.1]
      · show p.reserved - n ≤ p.stock - n
        linarith [hpi.2]
    · cases h

theorem releaseReserved_inv {ps ps2 : List (String × Product)} {pid : String} {n : Int}
    (hinv : ProdInv ps) (hn : 0 ≤ n)
    (h : releaseReserved ps pid n = some ps2) : ProdInv ps2 := by
  unfold releaseReserved at h
  split at h
  · cases h
  · rename_i p hfind
    split at h
    · rename_i hg
      cases h
      refine prodInv_updateA hinv ?_
      intro q hq
      rw [hfind] at hq
      cases hq
      have hpi := hinv (pid, p) (findA_mem hfind)
      refine ⟨?_, ?_⟩
      · show 0 ≤ p.reserved - n
        linarith
      · show p.reserved - n ≤ p.stock
        linarith [hpi.2]
    · cases h

/-! ### The three per-line loops preserve I1 -/

theorem reserveLoop_inv {items : List CartItem} :
    ∀ {ps ps2 : List (String × Product)} {snaps : List LineItem},
    ProdInv ps → (∀ it ∈ items, 0 ≤ it.qty) →
    reserveLoop ps items = .ok (ps2, snaps) → ProdInv ps2 := by
  induction items with
  | nil =>
    intro ps ps2 snaps hinv _ h
    cases h
    exact hinv
  | cons item rest ih =>
    intro ps ps2 snaps hinv hq h
    unfold reserveLoop at h
    split at h
    · cases h
    · rename_i p hfind
      split at h
      · cases h
      · split at h
        · cases h
        · rename_i ps3 hincr
          have hinv3 : ProdInv ps3 :=
            tryIncrementReserved_inv hinv (hq item (List.mem_cons_self ..)) hincr
          split at h
          · cases h
          · rename_i pr hrec
            cases h
            exact ih hinv3 (fun it hit => hq it (List.mem_cons_of_mem _ hit)) hrec

theorem commitLoop_inv {items : List LineItem} :
    ∀ {ps ps2 : List (String × Product)} {lows : List (String × Int × Int)},
    ProdInv ps → commitLoop ps items = .ok (ps2, lows) → ProdInv ps2 := by
  induction items with
  | nil =>
    intro ps ps2 lows hinv h
    cases h
    exact hinv
  | cons item rest ih =>
    intro ps ps2 lows hinv h
    unfold commitLoop at h
    split at h
    · cases h
    · rename_i ps3 sa thr hc
      have hinv3 : ProdInv ps3 := tryCommit_inv hinv hc
      split at h
      · cases h
      · rename_i pr hrec
        cases h
        exact ih hinv3 hrec

theorem releaseLoop_inv {items : List LineItem} :
    ∀ {ps : List (String × Product)},
    ProdInv ps → (∀ it ∈ items, 0 ≤ it.qty) →
    ProdInv (releaseLoop ps items).1 := by
  induction items with
  | nil => intro ps hinv _; exact hinv
  | cons item rest ih =>
    intro ps hinv hq
    unfold releaseLoop
    cases hr : releaseReserved ps item.productId item.qty with
    | none => exact ih hinv (fun it hit => hq it (List.mem_cons_of_mem _ hit))
    | some ps2 =>
      have hinv2 : ProdInv ps2 :=
        releaseReserved_inv hinv (hq item (List.mem_cons_self ..)) hr
      have := ih hinv2 (fun it hit => hq it (List.mem_cons_of_mem _ hit))
      dsimp only
      cases hrec : releaseLoop ps2 rest with
      | mk ps3 c =>
        rw [hrec] at this
        exact this

/-! ### Operation-level preservation of the invariant -/

theorem reserveLoop_snaps {items : List CartItem} :
    ∀ {ps ps2 : List (String × Product)} {snaps : List LineItem},
    reserveLoop ps items = .ok (ps2, snaps) →
    ∀ s ∈ snaps, ∃ it ∈ items, s.qty = it.qty := by
  induction items with
  | nil =>
    intro ps ps2 snaps h s hs
    cases h
    cases hs
  | cons item rest ih =>
    intro ps ps2 snaps h s hs
    unfold reserveLoop at h
    split at h
    · cases h
    · split at h
      · cases h
      · split at h
        · cases h
        · rename_i ps3 hincr
          split at h
          · cases h
          · rename_i pr hrec
            cases h
            rcases List.mem_cons.mp hs with hh | hh
            · exact ⟨item, List.mem_cons_self .., by rw [hh]⟩
            · rcases ih hrec s hh with ⟨it, hit, hq⟩
              exact ⟨it, List.mem_cons_of_mem _ hit, hq⟩

theorem createReservationAux_dbinv {db db2 : DB} {now : Int} {uid ship : String}
    {addr : Address} {resp : ReserveResponse}
    (h : createReservationAux db now uid addr ship = .ok (resp, db2))
    (hinv : DBInv db) : DBInv db2 := by
  unfold createReservationAux at h
  split at h
  · split at h
    · cases h
    · split at h
      · cases h
      · rename_i items hc
        split at h
        · cases h
        · split at h
          · cases h
          · rename_i products2 snaps hloop
            cases h
            have hwf : ∀ it ∈ sortCartItems items, CartItemWF it := by
              intro it hit
              have : it ∈ items := by
                simpa [sortCartItems] using hit
              exact hinv.2.1 (uid, items) (findA_mem hc) it this
            refine ⟨?_, ?_, ?_⟩
            · exact reserveLoop_inv hinv.1
                (fun it hit => by linarith [(hwf it hit).1]) hloop
            · exact hinv.2.1
            · intro kv hkv
              rcases List.mem_cons.mp hkv with hh | hh
              · intro it hit
                rw [hh] at hit
                rcases reserveLoop_snaps hloop it hit with ⟨c, hcmem, hq⟩
                have := hwf c hcmem
                exact ⟨by rw [hq]; exact this.1, by rw [hq]; exact this.2⟩
              · exact hinv.2.2 kv hh
  · cases h

theorem createReservation_dbinv (db : DB) (now : Int) (uid ship : String) (addr : Address)
    (hinv : DBInv db) : DBInv (createReservation db now uid addr ship).2 := by
  unfold createReservation
  cases h : createReservationAux db now uid addr ship with
  | ok pr =>
    obtain ⟨resp, db2⟩ := pr
    exact createReservationAux_dbinv h hinv
  | error e => exact hinv

theorem executeConfirmAux_dbinv {db db2 : DB} {uid rid : String} {now : Int}
    {r : ConfirmResult}
    (h : executeConfirmAux db uid rid now = .ok (r, db2))
    (hinv : DBInv db) : DBInv db2 := by
  unfold executeConfirmAux at h
  split at h
  · cases h
  · rename_i resv hfind
    split at h
    · cases h
    · split at h
      · cases h
      · split at h
        · cases h
        · split at h
          · cases h
          · rename_i products2 lows hcl
            cases h
            refine ⟨commitLoop_inv hinv.1 hcl, ?_, ?_⟩
            · intro kv hkv
              exact hinv.2.1 kv (mem_removeA hkv)
            · intro kv hkv
              rcases mem_updateA_strong hkv with hh | ⟨v, hv, hh⟩
              · exact hinv.2.2 kv hh
              · rw [hh]
                intro it hit
                exact hinv.2.2 (rid, v) (findA_mem hv) it hit

theorem executeConfirm_dbinv (db : DB) (uid rid : String) (now : Int)
    (hinv : DBInv db) : DBInv (executeConfirm db uid rid now).2 := by
  unfold executeConfirm
  cases h : executeConfirmAux db uid rid now with
  | ok pr =>
    obtain ⟨r, db2⟩ := pr
    exact executeConfirmAux_dbinv h hinv
  | error e => exact hinv

theorem confirmOrder_dbinv (db : DB) (now : Int) (uid rid key : String)
    (hinv : DBInv db) : DBInv (confirmOrder db now uid rid key).2 := by
  unfold confirmOrder
  cases hchk : checkIdempotency db.idem uid confirmEndpoint key (confirmRequestHash rid) with
  | error e => simpa [hchk] using hinv
  | ok o =>
    cases o with
    | some r => simpa [hchk] using hinv
    | none =>
      simp only [hchk]
      cases hf : findIdem db.idem uid confirmEndpoint key with
      | some r => simpa using hinv
      | none =>
        simp only []
        have hinv1 : DBInv { db with
            idem := ⟨uid, confirmEndpoint, key, confirmRequestHash rid, .in_progress, none⟩ :: db.idem } :=
          hinv
        cases hE : executeConfirm { db with
            idem := ⟨uid, confirmEndpoint, key, confirmRequestHash rid, .in_progress, none⟩ :: db.idem }
            uid rid now with
        | mk res db2 =>
          have h2 : DBInv db2 := by
            have := executeConfirm_dbinv { db with
              idem := ⟨uid, confirmEndpoint, key, confirmRequestHash rid, .in_progress, none⟩ :: db.idem }
              uid rid now hinv1
            rw [hE] at this
            exact this
          cases res with
          | ok result => exact h2
          | error e => exact h2

theorem sweepOne_dbinv (db : DB) (rid : String) (fetched : Reservation)
    (hfound : findA db.reservations rid = some fetched)
    (hinv : DBInv db) : DBInv (sweepOne db rid fetched).1 := by
  have hwf : ∀ it ∈ sortLineItems fetched.items, 0 ≤ it.qty := by
    intro it hit
    have : it ∈ fetched.items := by
      simpa [sortLineItems] using hit
    have := hinv.2.2 (rid, fetched) (findA_mem hfound) it this
    linarith [this.1]
  unfold sweepOne
  cases hrel : releaseLoop db.products (sortLineItems fetched.items) with
  | mk products2 released =>
    have hp : ProdInv products2 := by
      have := releaseLoop_inv hinv.1 hwf
      rw [hrel] at this
      exact this
    refine ⟨hp, hinv.2.1, ?_⟩
    intro kv hkv
    rcases mem_updateA_strong hkv with hh | ⟨v, hv, hh⟩
    · exact hinv.2.2 kv hh
    · rw [hh]
      intro it hit
      exact hinv.2.2 (rid, v) (findA_mem hv) it hit

theorem mem_upsertCartItem {items : List CartItem} {pid : String} {qty : Int}
    {it : CartItem} (h : it ∈ upsertCartItem items pid qty) :
    it ∈ items ∨ it = ⟨pid, qty⟩ := by
  induction items with
  | nil =>
    simp [upsertCartItem] at h
    exact Or.inr h
  | cons hd rest ih =>
    unfold upsertCartItem at h
    split at h
    · rcases List.mem_cons.mp h with hh | hh
      · exact Or.inr hh
      · exact Or.inl (List.mem_cons_of_mem _ hh)
    · rcases List.mem_cons.mp h with hh | hh
      · exact Or.inl (hh ▸ List.mem_cons_self ..)
      · rcases ih hh with h1 | h1
        · exact Or.inl (List.mem_cons_of_mem _ h1)
        · exact Or.inr h1

theorem addToCart_dbinv (db : DB) (uid pid : String) (qty : Int)
    (hinv : DBInv db) : DBInv (addToCart db uid pid qty).2 := by
  unfold addToCart
  by_cases hvalid : qty < 1 ∨ qty > 5
  · rw [if_pos hvalid]
    exact hinv
  · rw [if_neg hvalid]
    have hq : 1 ≤ qty ∧ qty ≤ 5 := by
      rcases not_or.mp hvalid with ⟨h1, h2⟩
      exact ⟨by linarith, by linarith⟩
    cases hp : findA db.products pid with
    | none => exact hinv
    | some p =>
      simp only []
      cases hc : findA db.carts uid with
      | none =>
        refine ⟨hinv.1, ?_, hinv.2.2⟩
        intro kv hkv
        rcases List.mem_cons.mp hkv with hh | hh
        · rw [hh]
          intro it hit
          rcases List.mem_singleton.mp hit with h1
          rw [h1]
          exact hq
        · exact hinv.2.1 kv hh
      | some items =>
        refine ⟨hinv.1, ?_, hinv.2.2⟩
        intro kv hkv
        rcases mem_updateA_strong hkv with hh | ⟨v, hv, hh⟩
        · exact hinv.2.1 kv hh
        · rw [hh]
          intro it hit
          rcases mem_upsertCartItem hit with h1 | h1
          · have hvi : v = items := by
              rw [hv] at hc
              exact Option.some.inj hc
            exact hinv.2.1 (uid, items) (findA_mem hc) it (hvi ▸ h1)
          · rw [h1]
            exact hq

/-! ## The step relation of the core operations and invariant I1 (claim C1) -/

/-- One committed core operation: a reserve, a confirm, one sweeper
transaction over a currently selected document (active and past expiry), or a
cart upsert. -/
inductive Step : DB → DB → Prop
  | reserve (db : DB) (now : Int) (uid ship : String) (addr : Address) :
      Step db (createReservation db now uid addr ship).2
  | confirm (db : DB) (now : Int) (uid rid key : String) :
      Step db (confirmOrder db now uid rid key).2
  | sweep (db : DB) (now : Int) (rid : String) (r : Reservation)
      (hfound : findA db.reservations rid = some r)
      (hsel : r.status = ReservationStatus.active ∧ r.expiresAt ≤ now) :
      Step db (sweepOne db rid r).1
  | cartAdd (db : DB) (uid pid : String) (qty : Int) :
      Step db (addToCart db uid pid qty).2

/-- Committed states reachable from a given state by core operations. -/
def Reachable : DB → DB → Prop := Relation.ReflTransGen Step

theorem dbInv_step {db db2 : DB} (hinv : DBInv db) (h : Step db db2) : DBInv db2 := by
  cases h with
  | reserve now uid ship addr => exact createReservation_dbinv db now uid ship addr hinv
  | confirm now uid rid key => exact confirmOrder_dbinv db now uid rid key hinv
  | sweep now rid r hfound hsel => exact sweepOne_dbinv db rid r hfound hinv
  | cartAdd uid pid qty => exact addToCart_dbinv db uid pid qty hinv

theorem dbInv_reachable {db db2 : DB} (hinv : DBInv db) (h : Reachable db db2) : DBInv db2 := by
  induction h with
  | refl => exact hinv
  | tail _ hstep ih => exact dbInv_step ih hstep

/-! ## Shared concrete fixtures for witnesses and counterexamples -/

def addrF : Address :=
  [("name", "N"), ("phone", "P"), ("line1", "L"), ("city", "C"), ("state", "S"), ("pincode", "PC")]

def prodA : Product := ⟨"SKU-A", "Prod A", 1000, 50, 0, 10, "img"⟩

def prodB : Product := ⟨"SKU-B", "Prod B", 500, 30, 0, 5, "img"⟩

/-- Scenario 1 of the spec: products A and B, caller X with cart [(A,2),(B,1)]. -/
def dbHappy : DB :=
  ⟨[("A", prodA), ("B", prodB)], [], [], [("X", [⟨"A", 2⟩, ⟨"B", 1⟩])], [], [], 1, 1⟩

/-! ## Claim C1 -/

/-- C1: for every product and every committed state reachable by any sequence
of the core operations (the guarded increment of reserve, the guarded joint
decrement of confirm, the sweeper's guarded decrement), the availability
invariant `stock ≥ reserved ≥ 0` holds; each step preserves the invariant
because its guard holds as precondition (theorem `dbInv_step`). -/
theorem C1_availability_invariant (db db2 : DB) (hinv : DBInv db) (hreach : Reachable db db2) :
    ∀ kv ∈ db2.products, 0 ≤ kv.2.reserved ∧ kv.2.reserved ≤ kv.2.stock :=
  fun kv hkv => (dbInv_reachable hinv hreach).1 kv hkv

/-- Witness for C1 at a concrete state: after one reserve step from the
scenario-1 state, product A holds `reserved = 2 ≤ stock = 50`. -/
theorem C1_availability_invariant_witness :
    0 ≤ (Product.mk "SKU-A" "Prod A" 1000 50 2 10 "img").reserved ∧
    (Product.mk "SKU-A" "Prod A" 1000 50 2 10 "img").reserved ≤
      (Product.mk "SKU-A" "Prod A" 1000 50 2 10 "img").stock :=
  C1_availability_invariant dbHappy (createReservation dbHappy 0 "X" addrF "standard").2
    (by decide)
    (Relation.ReflTransGen.single (Step.reserve dbHappy 0 "X" "standard" addrF))
    ("A", ⟨"SKU-A", "Prod A", 1000, 50, 2, 10, "img"⟩) (by decide)

/-! ## Claim C2 -/

/-- A cart line whose guarded increment must fail against the given product
state: the product is absent, or fewer than `qty` units are available. -/
def lineFailsB (products : List (String × Product)) (item : CartItem) : Bool :=
  match findA products item.productId with
  | none => true
  | some p => decide (p.stock - p.reserved < item.qty)

theorem reserveLoop_fails {items : List CartItem} :
    ∀ {ps : List (String × Product)} {item : CartItem},
    (items.map (·.productId)).Nodup → item ∈ items → lineFailsB ps item = true →
    ∃ e, reserveLoop ps items = .error e := by
  induction items with
  | nil =>
    intro ps item _ hi _
    cases hi
  | cons hd rest ih =>
    intro ps item hnd hi hf
    rcases List.mem_cons.mp hi with hcase | hcase
    · subst hcase
      unfold reserveLoop
      cases hfind : findA ps item.productId with
      | none => exact ⟨_, rfl⟩
      | some p =>
        have hlt : p.stock - p.reserved < item.qty := by
          unfold lineFailsB at hf
          rw [hfind] at hf
          exact of_decide_eq_true hf
        simp only [hfind, if_pos hlt]
        exact ⟨_, rfl⟩
    · unfold reserveLoop
      cases hfind : findA ps hd.productId with
      | none => exact ⟨_, rfl⟩
      | some p =>
        simp only [hfind]
        by_cases hav : p.stock - p.reserved < hd.qty
        · rw [if_pos hav]
          exact ⟨_, rfl⟩
        · rw [if_neg hav]
          cases hincr : tryIncrementReserved ps hd.productId hd.qty with
          | none => exact ⟨_, rfl⟩
          | some ps2 =>
            simp only [hincr]
            have hne : item.productId ≠ hd.productId := by
              intro hcontra
              have hmem : item.productId ∈ rest.map (·.productId) :=
                List.mem_map.mpr ⟨item, hcase, rfl⟩
              rw [hcontra] at hmem
              exact (List.nodup_cons.mp hnd).1 hmem
            have hf2 : lineFailsB ps2 item = true := by
              have hps2 : ps2 = updateA ps hd.productId
                  (fun q => { q with reserved := q.reserved + hd.qty }) := by
                unfold tryIncrementReserved at hincr
                simp only [hfind] at hincr
                by_cases hg : p.stock - p.reserved ≥ hd.qty
                · rw [if_pos hg] at hincr
                  exact (Option.some.inj hincr).symm
                · rw [if_neg hg] at hincr
                  cases hincr
              unfold lineFailsB at hf ⊢
              rw [hps2, findA_updateA_ne _ _ _ _ hne]
              exact hf
            rcases ih (List.nodup_cons.mp hnd).2 hcase hf2 with ⟨e, he⟩
            rw [he]
            exact ⟨_, rfl⟩

/-- C2: reserve is all-or-nothing.  Whenever the caller's cart contains
(pairwise-distinct products and) a line whose guarded increment must fail —
product absent or available stock below the requested quantity — the whole
reserve call fails and returns the state unchanged: every reserved counter
keeps its value (including products whose lines succeeded earlier in the same
call) and no Reservation document is created. -/
theorem C2_reserve_all_or_nothing (db : DB) (now : Int) (uid ship : String) (addr : Address)
    (items : List CartItem) (item : CartItem)
    (hc : findA db.carts uid = some items)
    (hnd : (items.map (·.productId)).Nodup)
    (hi : item ∈ items)
    (hf : lineFailsB db.products item = true) :
    ∃ e, createReservation db now uid addr ship = (.error e, db) := by
  have haux : ∃ e, createReservationAux db now uid addr ship = .error e := by
    unfold createReservationAux
    by_cases hship : allowedShippingMethods.contains ship
    · rw [if_pos hship]
      cases hmiss : missingAddressFields addr with
      | cons f fs => exact ⟨_, rfl⟩
      | nil =>
        simp only [hc]
        have hne : items.isEmpty = false := by
          cases items with
          | nil => cases hi
          | cons a l => rfl
        rw [hne]
        simp only [Bool.false_eq_true, if_false]
        have hperm : List.Perm (sortCartItems items) items := List.perm_insertionSort _ items
        have hnd2 : ((sortCartItems items).map (·.productId)).Nodup :=
          ((hperm.map (·.productId)).nodup_iff).mpr hnd
        have hi2 : item ∈ sortCartItems items := hperm.mem_iff.mpr hi
        rcases reserveLoop_fails hnd2 hi2 hf with ⟨e, he⟩
        rw [he]
        exact ⟨_, rfl⟩
    · rw [if_neg hship]
      exact ⟨_, rfl⟩
  rcases haux with ⟨e, he⟩
  refine ⟨e, ?_⟩
  unfold createReservation
  rw [he]

/-- Witness for C2: caller X's cart holds [(A,2),(B,100)] and only 30 units of
B exist, so the reserve fails and leaves the state untouched (in particular
the already-granted hold on A is not kept). -/
theorem C2_reserve_all_or_nothing_witness :
    ∃ e, createReservation
        ⟨[("A", prodA), ("B", prodB)], [], [], [("X", [⟨"A", 2⟩, ⟨"B", 100⟩])], [], [], 1, 1⟩
        0 "X" addrF "standard"
      = (.error e,
         ⟨[("A", prodA), ("B", prodB)], [], [], [("X", [⟨"A", 2⟩, ⟨"B", 100⟩])], [], [], 1, 1⟩) :=
  C2_reserve_all_or_nothing
    ⟨[("A", prodA), ("B", prodB)], [], [], [("X", [⟨"A", 2⟩, ⟨"B", 100⟩])], [], [], 1, 1⟩
    0 "X" "standard" addrF [⟨"A", 2⟩, ⟨"B", 100⟩] ⟨"B", 100⟩
    (by decide) (by decide) (by decide) (by decide)

/-! ## Claim C3 -/

/-- The scenario-1 state right after the reserve, with an `IdempotencyRecord`
for `(X, confirm, K1)` left in state `failed` (with the matching fingerprint)
by a previous attempt — the retry situation of the spec's semantics table. -/
def dbRetryC3 : DB :=
  { (createReservation dbHappy 0 "X" addrF "standard").2 with
    idem := [⟨"X", confirmEndpoint, "K1", confirmRequestHash "R1", .failed, none⟩] }

set_option maxRecDepth 40000 in
/-- C3 fails on the code: with a `failed` record carrying the matching
fingerprint, `checkIdempotency` does let the attempt proceed, but
`confirmOrder` then unconditionally inserts a fresh `in_progress` record with
the same `(userId, endpoint, key)`, which the unique compound index rejects —
the retry attempt fails with a duplicate-key error instead of executing. -/
theorem C3_retry_hits_unique_index :
    checkIdempotency dbRetryC3.idem "X" confirmEndpoint "K1" (confirmRequestHash "R1")
      = .ok none ∧
    confirmOrder dbRetryC3 5 "X" "R1" "K1" = (.error duplicateKeyError, dbRetryC3) := by
  constructor
  · decide
  · decide

/-! ## Claim C4 -/

theorem executeConfirmAux_shape {db db2 : DB} {uid rid : String} {now : Int}
    {r : ConfirmResult}
    (h : executeConfirmAux db uid rid now = .ok (r, db2)) :
    db2.idem = db.idem ∧ db2.orders.length = db.orders.length + 1 := by
  unfold executeConfirmAux at h
  split at h
  · cases h
  · split at h
    · cases h
    · split at h
      · cases h
      · split at h
        · cases h
        · split at h
          · cases h
          · rename_i products2 lows hcl
            cases h
            exact ⟨rfl, by simp⟩

theorem executeConfirm_shape (db : DB) (uid rid : String) (now : Int)
    (r : ConfirmResult) (db2 : DB)
    (h : executeConfirm db uid rid now = (.ok r, db2)) :
    db2.idem = db.idem ∧ db2.orders.length = db.orders.length + 1 := by
  unfold executeConfirm at h
  cases haux : executeConfirmAux db uid rid now with
  | ok pr =>
    obtain ⟨r0, db0⟩ := pr
    rw [haux] at h
    cases h
    exact executeConfirmAux_shape haux
  | error e =>
    rw [haux] at h
    cases h

theorem findIdem_cons_self {uid ep key : String} (r : IdemRecord) (rest : List IdemRecord)
    (h : r.userId = uid ∧ r.endpoint = ep ∧ r.key = key) :
    findIdem (r :: rest) uid ep key = some r := by
  unfold findIdem
  exact List.find?_cons_of_pos _ (by simpa using h)

theorem updateIdem_cons_self {uid ep key : String} (r : IdemRecord) (rest : List IdemRecord)
    (f : IdemRecord → IdemRecord)
    (h : r.userId = uid ∧ r.endpoint = ep ∧ r.key = key) :
    updateIdem (r :: rest) uid ep key f = f r :: rest := by
  unfold updateIdem
  rw [if_pos h]

theorem checkIdempotency_replay (rest : List IdemRecord) (uid ep key hash : String)
    (resp : Option ConfirmResult) :
    checkIdempotency (⟨uid, ep, key, hash, .succeeded, resp⟩ :: rest) uid ep key hash
      = .ok resp := by
  unfold checkIdempotency
  rw [findIdem_cons_self _ _ ⟨rfl, rfl, rfl⟩]
  simp

/-- C4 (property P3, replay half): when a confirm attempt succeeds, a second
sequential attempt with the same caller, reservation id (hence the same
fingerprint) and token returns exactly the first response — same orderId and
status — and leaves the state exactly as it was; over the two attempts at
most one Order is created. -/
theorem C4_idempotent_replay (db : DB) (now1 now2 : Int) (uid rid key : String)
    (r1 : ConfirmResult) (db1 : DB)
    (h1 : confirmOrder db now1 uid rid key = (.ok r1, db1)) :
    confirmOrder db1 now2 uid rid key = (.ok r1, db1) ∧
    db1.orders.length ≤ db.orders.length + 1 := by
  have h1' := h1
  simp only [confirmOrder] at h1'
  cases hchk : checkIdempotency db.idem uid confirmEndpoint key (confirmRequestHash rid) with
  | error e =>
    rw [hchk] at h1'
    simp at h1'
  | ok o =>
    cases o with
    | some r =>
      rw [hchk] at h1'
      simp only [Prod.mk.injEq] at h1'
      obtain ⟨hr, hdb⟩ := h1'
      have hr1 : r = r1 := by
        cases hr
        rfl
      subst hdb
      subst hr1
      constructor
      · simp only [confirmOrder, hchk]
      · exact Nat.le_succ _
    | none =>
      rw [hchk] at h1'
      simp only [] at h1'
      cases hf : findIdem db.idem uid confirmEndpoint key with
      | some ex =>
        rw [hf] at h1'
        simp at h1'
      | none =>
        rw [hf] at h1'
        simp only [] at h1'
        cases hE : executeConfirm
            { db with idem := ⟨uid, confirmEndpoint, key, confirmRequestHash rid,
                               .in_progress, none⟩ :: db.idem } uid rid now1 with
        | mk res db2 =>
          rw [hE] at h1'
          cases res with
          | error e => simp at h1'
          | ok result =>
            simp only [Prod.mk.injEq] at h1'
            obtain ⟨hr, hdb⟩ := h1'
            have hr1 : result = r1 := by
              cases hr
              rfl
            subst hr1
            have hshape := executeConfirm_shape _ _ _ _ _ _ hE
            have hidem : db1.idem =
                (⟨uid, confirmEndpoint, key, confirmRequestHash rid, .succeeded,
                  some result⟩ : IdemRecord) :: db.idem := by
              rw [← hdb]
              show updateIdem db2.idem uid confirmEndpoint key _ = _
              rw [hshape.1]
              rw [updateIdem_cons_self _ _ _ ⟨rfl, rfl, rfl⟩]
            have horders : db1.orders = db2.orders := by
              rw [← hdb]
            constructor
            · have hchk2 : checkIdempotency db1.idem uid confirmEndpoint key
                  (confirmRequestHash rid) = .ok (some result) := by
                rw [hidem]
                exact checkIdempotency_replay _ _ _ _ _ _
              simp only [confirmOrder, hchk2]
            · rw [horders]
              exact Nat.le_of_eq hshape.2

/-- Scenario-1 state after the reserve: holds granted, reservation R1 active. -/
def dbReserved : DB := (createReservation dbHappy 0 "X" addrF "standard").2

set_option maxRecDepth 40000 in
/-- Witness for C4: after the scenario-1 confirm succeeds with order 1, the
retried confirm replays `(orderId 1, created)` and leaves the state exactly
unchanged, with exactly one order in the store. -/
theorem C4_idempotent_replay_witness :
    confirmOrder (confirmOrder dbReserved 5 "X" "R1" "K1").2 6 "X" "R1" "K1"
      = (.ok ⟨"1", "created"⟩, (confirmOrder dbReserved 5 "X" "R1" "K1").2) ∧
    (confirmOrder dbReserved 5 "X" "R1" "K1").2.orders.length ≤ dbReserved.orders.length + 1 :=
  C4_idempotent_replay dbReserved 5 6 "X" "R1" "K1" ⟨"1", "created"⟩
    (confirmOrder dbReserved 5 "X" "R1" "K1").2
    (by
      have h : (confirmOrder dbReserved 5 "X" "R1" "K1").1 = .ok ⟨"1", "created"⟩ := by decide
      rw [← h])

/-! ## Claim C5 -/

/-- Any error raised inside the per-line commit loop is an Insufficient (409). -/
theorem commitLoop_error_status {items : List LineItem} :
    ∀ {ps : List (String × Product)} {e : AppError},
    commitLoop ps items = .error e → e.statusCode = 409 := by
  induction items with
  | nil =>
    intro ps e h
    cases h
  | cons item rest ih =>
    intro ps e h
    unfold commitLoop at h
    split at h
    · cases h
      rfl
    · split at h
      · rename_i e2 hrec
        cases h
        exact ih hrec
      · cases h

/-- The executeConfirm transaction aborts cleanly: an error leaves the state
exactly as it was. -/
theorem executeConfirm_error_state (db : DB) (uid rid : String) (now : Int)
    (e : AppError) (db2 : DB)
    (h : executeConfirm db uid rid now = (.error e, db2)) : db2 = db := by
  unfold executeConfirm at h
  cases haux : executeConfirmAux db uid rid now with
  | ok pr =>
    obtain ⟨r0, db0⟩ := pr
    rw [haux] at h
    cases h
  | error e2 =>
    rw [haux] at h
    cases h
    rfl

/-- C5: the per-line commit step of confirm (`tryCommit`) succeeds iff
`reserved ≥ n` and `stock ≥ n` held before the update; on success it
decrements both counters by exactly `n` in the one conditional update, leaves
every other product untouched, and yields the post-update stock together with
the product's threshold; any commit-loop failure is an Insufficient (409) and
an erroring confirm transaction leaves the state unchanged. -/
theorem C5_tryCommit_semantics (products : List (String × Product)) (pid : String) (n : Int)
    (p : Product) (h : findA products pid = some p) :
    ((tryCommit products pid n).isSome ↔ (p.reserved ≥ n ∧ p.stock ≥ n)) ∧
    (∀ ps2 sa thr, tryCommit products pid n = some (ps2, sa, thr) →
       sa = p.stock - n ∧ thr = p.lowStockThreshold ∧
       findA ps2 pid = some { p with stock := p.stock - n, reserved := p.reserved - n } ∧
       ∀ q, q ≠ pid → findA ps2 q = findA products q) ∧
    (∀ items e, commitLoop products items = .error e → e.statusCode = 409) ∧
    (∀ db uid rid now e db2, executeConfirm db uid rid now = (.error e, db2) → db2 = db) := by
  refine ⟨?_, ?_, ?_, ?_⟩
  · unfold tryCommit
    rw [h]
    by_cases hg : p.reserved ≥ n ∧ p.stock ≥ n
    · simp only [if_pos hg]
      simpa using hg
    · simp only [if_neg hg]
      simpa using hg
  · intro ps2 sa thr heq
    unfold tryCommit at heq
    simp only [h] at heq
    by_cases hg : p.reserved ≥ n ∧ p.stock ≥ n
    · rw [if_pos hg] at heq
      injection heq with heq
      injection heq with h1 h2
      injection h2 with h2 h3
      subst h1
      subst h2
      subst h3
      refine ⟨rfl, rfl, ?_, ?_⟩
      · rw [findA_updateA_self, h]
        rfl
      · intro q hq
        exact findA_updateA_ne _ _ _ _ hq
    · rw [if_neg hg] at heq
      cases heq
  · intro items e he
    exact commitLoop_error_status he
  · intro db uid rid now e db2 h2
    exact executeConfirm_error_state db uid rid now e db2 h2

/-- Witness for C5: in the scenario-1 post-reserve state, committing 2 units
of product A succeeds (A has stock 50 and reserved 2). -/
theorem C5_tryCommit_semantics_witness :
    (tryCommit dbReserved.products "A" 2).isSome :=
  (C5_tryCommit_semantics dbReserved.products "A" 2
    ⟨"SKU-A", "Prod A", 1000, 50, 2, 10, "img"⟩ (by decide)).1.mpr (by decide)

/-! ## Claim C7 -/

/-- C7: a confirm attempt that has passed the idempotency check fails with
NotFound (404) when the reservation id is unknown, Forbidden (403) when the
reservation belongs to another caller, Gone (410) when its state is not
active or its expiry has passed — checked in that order — and in every
failure case the state (inventory counters, orders, the reservation itself)
is returned unchanged. -/
theorem C7_confirm_precondition_errors (db : DB) (uid rid : String) (now : Int) :
    (findA db.reservations rid = none →
      executeConfirm db uid rid now = (.error ⟨404, "Reservation not found"⟩, db)) ∧
    (∀ resv, findA db.reservations rid = some resv → resv.userId ≠ uid →
      executeConfirm db uid rid now = (.error ⟨403, "Reservation does not belong to user"⟩, db)) ∧
    (∀ resv, findA db.reservations rid = some resv → resv.userId = uid →
      resv.status ≠ .active →
      executeConfirm db uid rid now = (.error ⟨410, "Reservation is not active"⟩, db)) ∧
    (∀ resv, findA db.reservations rid = some resv → resv.userId = uid →
      resv.status = .active → resv.expiresAt ≤ now →
      executeConfirm db uid rid now = (.error ⟨410, "Reservation has expired"⟩, db)) ∧
    (∀ e db2, executeConfirm db uid rid now = (.error e, db2) → db2 = db) := by
  refine ⟨?_, ?_, ?_, ?_, ?_⟩
  · intro hnone
    have haux : executeConfirmAux db uid rid now = .error ⟨404, "Reservation not found"⟩ := by
      unfold executeConfirmAux
      simp only [hnone]
    unfold executeConfirm
    rw [haux]
  · intro resv hsome hne
    have haux : executeConfirmAux db uid rid now
        = .error ⟨403, "Reservation does not belong to user"⟩ := by
      unfold executeConfirmAux
      simp only [hsome]
      rw [if_pos hne]
    unfold executeConfirm
    rw [haux]
  · intro resv hsome huid hstat
    have haux : executeConfirmAux db uid rid now
        = .error ⟨410, "Reservation is not active"⟩ := by
      unfold executeConfirmAux
      simp only [hsome]
      rw [if_neg (by simp [huid]), if_pos hstat]
    unfold executeConfirm
    rw [haux]
  · intro resv hsome huid hstat hexp
    have haux : executeConfirmAux db uid rid now
        = .error ⟨410, "Reservation has expired"⟩ := by
      unfold executeConfirmAux
      simp only [hsome]
      rw [if_neg (by simp [huid]), if_neg (by simp [hstat]), if_pos hexp]
    unfold executeConfirm
    rw [haux]
  · intro e db2 h2
    exact executeConfirm_error_state db uid rid now e db2 h2

/-- Witness for C7: against the post-reserve scenario-1 state, an unknown
reservation id gives 404, a foreign caller gives 403, a second confirm of the
already consumed reservation gives 410, and a confirm at the expiry instant
gives 410 — each leaving the state unchanged. -/
theorem C7_confirm_precondition_errors_witness :
    executeConfirm dbReserved "X" "nope" 5
      = (.error ⟨404, "Reservation not found"⟩, dbReserved) ∧
    executeConfirm dbReserved "Y" "R1" 5
      = (.error ⟨403, "Reservation does not belong to user"⟩, dbReserved) ∧
    executeConfirm (confirmOrder dbReserved 5 "X" "R1" "K1").2 "X" "R1" 6
      = (.error ⟨410, "Reservation is not active"⟩, (confirmOrder dbReserved 5 "X" "R1" "K1").2) ∧
    executeConfirm dbReserved "X" "R1" 600000
      = (.error ⟨410, "Reservation has expired"⟩, dbReserved) :=
  ⟨(C7_confirm_precondition_errors dbReserved "X" "nope" 5).1 (by decide),
   (C7_confirm_precondition_errors dbReserved "Y" "R1" 5).2.1
     ⟨"X", .active, [⟨"A", "SKU-A", "Prod A", 1000, 2⟩, ⟨"B", "SKU-B", "Prod B", 500, 1⟩],
      addrF, "standard", 600000⟩ (by decide) (by decide),
   (C7_confirm_precondition_errors (confirmOrder dbReserved 5 "X" "R1" "K1").2 "X" "R1" 6).2.2.1
     ⟨"X", .consumed, [⟨"A", "SKU-A", "Prod A", 1000, 2⟩, ⟨"B", "SKU-B", "Prod B", 500, 1⟩],
      addrF, "standard", 600000⟩ (by decide) (by decide) (by decide),
   (C7_confirm_precondition_errors dbReserved "X" "R1" 600000).2.2.2.1
     ⟨"X", .active, [⟨"A", "SKU-A", "Prod A", 1000, 2⟩, ⟨"B", "SKU-B", "Prod B", 500, 1⟩],
      addrF, "standard", 600000⟩ (by decide) (by decide) (by decide) (by decide)⟩

/-! ## Claim C6 -/

/-- The reservation document exactly as the sweeper's `find` fetched it while
it was still active (reservation R1 of the scenario-1 state, at its expiry
instant). -/
def staleDocC6 : Reservation :=
  ⟨"X", .active,
   [⟨"A", "SKU-A", "Prod A", 1000, 2⟩, ⟨"B", "SKU-B", "Prod B", 500, 1⟩],
   addrF, "standard", 600000⟩

/-- The committed state after the racing confirm wins: R1 is `consumed`. -/
def dbConsumedC6 : DB := (confirmOrder dbReserved 5 "X" "R1" "K1").2

set_option maxRecDepth 40000 in
/-- C6 fails on the code.  Schedule: the sweeper's scan (at the expiry
instant) selects R1 while it is still active; the confirm — whose transaction
read its snapshot before expiry — commits first, moving R1 to the terminal
state `consumed`; the sweeper then processes the stale document.  Because its
status update filters on `_id` alone (no `status: 'active'` clause), it
matches the consumed document and overwrites the terminal state with
`expired`, instead of matching zero documents and being skipped.  The release
guard does fail (counters untouched): only the state write escapes the
guard. -/
theorem C6_sweep_overwrites_consumed_state :
    sweepSelect dbReserved 600000 = [("R1", staleDocC6)] ∧
    (findA dbConsumedC6.reservations "R1").map (fun r => r.status)
      = some ReservationStatus.consumed ∧
    (findA (sweepOne dbConsumedC6 "R1" staleDocC6).1.reservations "R1").map (fun r => r.status)
      = some ReservationStatus.expired ∧
    (sweepOne dbConsumedC6 "R1" staleDocC6).1.products = dbConsumedC6.products := by
  refine ⟨by decide, by decide, by decide, by decide⟩

/-! ## Claim C8 -/

theorem tryCommit_eq {ps ps3 : List (String × Product)} {pid : String} {n sa thr : Int}
    {p : Product} (h : findA ps pid = some p)
    (hc : tryCommit ps pid n = some (ps3, sa, thr)) :
    sa = p.stock - n ∧ thr = p.lowStockThreshold ∧
    ∀ q, q ≠ pid → findA ps3 q = findA ps q := by
  unfold tryCommit at hc
  simp only [h] at hc
  split at hc
  · injection hc with hc
    injection hc with h1 h2
    injection h2 with h2 h3
    subst h1
    subst h2
    subst h3
    exact ⟨rfl, rfl, fun q hq => findA_updateA_ne _ _ _ _ hq⟩
  · cases hc

theorem tryCommit_ne {ps ps3 : List (String × Product)} {pid : String} {n sa thr : Int}
    (hc : tryCommit ps pid n = some (ps3, sa, thr)) :
    ∀ q, q ≠ pid → findA ps3 q = findA ps q := by
  unfold tryCommit at hc
  split at hc
  · cases hc
  · split at hc
    · injection hc with hc
      injection hc with h1 h2
      subst h1
      exact fun q hq => findA_updateA_ne _ _ _ _ hq
    · cases hc

/-- Every product id recorded in the low-stock list of a commit loop comes
from one of the processed lines. -/
theorem commitLoop_lows_pids {items : List LineItem} :
    ∀ {ps ps2 : List (String × Product)} {lows : List (String × Int × Int)},
    commitLoop ps items = .ok (ps2, lows) →
    ∀ l ∈ lows, l.1 ∈ items.map (·.productId) := by
  induction items with
  | nil =>
    intro ps ps2 lows h l hl
    cases h
    cases hl
  | cons item rest ih =>
    intro ps ps2 lows h l hl
    unfold commitLoop at h
    split at h
    · cases h
    · rename_i ps3 sa thr hc
      split at h
      · cases h
      · rename_i pr hrec
        cases h
        rcases List.mem_append.mp hl with hm | hm
        · by_cases hcond : sa < thr
          · rw [if_pos hcond] at hm
            rcases List.mem_singleton.mp hm with h1
            rw [h1]
            exact List.mem_map.mpr ⟨item, List.mem_cons_self .., rfl⟩
          · rw [if_neg hcond] at hm
            cases hm
        · have := ih hrec l hm
          simp only [List.map_cons, List.mem_cons]
          exact Or.inr (by simpa using this)

/-- Characterization of the low-stock list: for lines over pairwise-distinct
products, the tuple (productId, post-commit stock, threshold) of a line is in
the list exactly when its post-commit stock fell strictly below threshold. -/
theorem commitLoop_lows_mem {items : List LineItem} :
    ∀ {ps ps2 : List (String × Product)} {lows : List (String × Int × Int)},
    (items.map (·.productId)).Nodup →
    commitLoop ps items = .ok (ps2, lows) →
    ∀ item ∈ items, ∀ p, findA ps item.productId = some p →
    ((item.productId, p.stock - item.qty, p.lowStockThreshold) ∈ lows ↔
      p.stock - item.qty < p.lowStockThreshold) := by
  induction items with
  | nil =>
    intro ps ps2 lows _ h item hitem
    cases hitem
  | cons hd rest ih =>
    intro ps ps2 lows hnd h item hitem p hp
    unfold commitLoop at h
    split at h
    · cases h
    · rename_i ps3 sa thr hc
      split at h
      · cases h
      · rename_i ps4 lows2 hrec
        cases h
        rcases List.mem_cons.mp hitem with hcase | hcase
        · subst hcase
          rcases tryCommit_eq hp hc with ⟨hsa, hthr, _⟩
          subst hsa
          subst hthr
          have hnot : (item.productId, p.stock - item.qty, p.lowStockThreshold) ∉ lows2 := by
            intro hm
            have := commitLoop_lows_pids hrec _ hm
            exact (List.nodup_cons.mp hnd).1 (by simpa using this)
          by_cases hcond : p.stock - item.qty < p.lowStockThreshold
          · rw [if_pos hcond]
            exact ⟨fun _ => hcond, fun _ => List.mem_append.mpr (Or.inl (by simp))⟩
          · rw [if_neg hcond]
            simp only [List.nil_append]
            exact ⟨fun hm => absurd hm hnot, fun hb => absurd hb hcond⟩
        · have hne : item.productId ≠ hd.productId := by
            intro hcontra
            have hmem : item.productId ∈ rest.map (·.productId) :=
              List.mem_map.mpr ⟨item, hcase, rfl⟩
            rw [hcontra] at hmem
            exact (List.nodup_cons.mp hnd).1 hmem
          have hp3 : findA ps3 item.productId = some p := by
            rw [tryCommit_ne hc _ hne]
            exact hp
          have hiff := ih (List.nodup_cons.mp hnd).2 hrec item hcase p hp3
          have hnotL : (item.productId, p.stock - item.qty, p.lowStockThreshold)
              ∉ (if sa < thr then [(hd.productId, sa, thr)] else []) := by
            by_cases hcond : sa < thr
            · rw [if_pos hcond]
              intro hm
              rcases List.mem_singleton.mp hm with h1
              exact hne (congrArg Prod.fst h1)
            · rw [if_neg hcond]
              intro hm
              cases hm
          constructor
          · intro hm
            rcases List.mem_append.mp hm with hm | hm
            · exact absurd hm hnotL
            · exact hiff.mp hm
          · intro hb
            exact List.mem_append.mpr (Or.inr (hiff.mpr hb))

theorem executeConfirm_ok_aux {db db2 : DB} {uid rid : String} {now : Int} {r : ConfirmResult}
    (h : executeConfirm db uid rid now = (.ok r, db2)) :
    executeConfirmAux db uid rid now = .ok (r, db2) := by
  unfold executeConfirm at h
  cases haux : executeConfirmAux db uid rid now with
  | ok pr =>
    obtain ⟨r0, db0⟩ := pr
    simp only [haux, Prod.mk.injEq, Except.ok.injEq] at h
    obtain ⟨h1, h2⟩ := h
    rw [← h1, ← h2]
  | error e =>
    rw [haux] at h
    cases h

theorem executeConfirmAux_ok_parts {db db2 : DB} {uid rid : String} {now : Int}
    {r : ConfirmResult}
    (h : executeConfirmAux db uid rid now = .ok (r, db2)) :
    ∃ resv products2 lows,
      findA db.reservations rid = some resv ∧
      commitLoop db.products (sortLineItems resv.items) = .ok (products2, lows) ∧
      db2.alerts = db.alerts ++
        lows.map (fun l => (⟨l.1, l.2.1, l.2.2, false⟩ : LowStockAlertRec)) := by
  unfold executeConfirmAux at h
  split at h
  · cases h
  · rename_i resv hfind
    split at h
    · cases h
    · split at h
      · cases h
      · split at h
        · cases h
        · split at h
          · cases h
          · rename_i products2 lows hcl
            cases h
            exact ⟨resv, products2, lows, hfind, hcl, rfl⟩

/-- C8: for every successful confirm and every line of the reservation (with
pairwise-distinct products), a LowStockSignal `{productId, stockAfter =
post-commit stock, the product's threshold, processed = false}` is inserted
if and only if the confirm brought the stock strictly below the threshold; a
line that leaves stock at or above its threshold inserts nothing for that
product. -/
theorem C8_low_stock_signal (db : DB) (uid rid : String) (now : Int)
    (r : ConfirmResult) (db2 : DB) (resv : Reservation)
    (hres : findA db.reservations rid = some resv)
    (hnd : (resv.items.map (·.productId)).Nodup)
    (hok : executeConfirm db uid rid now = (.ok r, db2)) :
    ∀ item ∈ resv.items, ∀ p, findA db.products item.productId = some p →
      ((⟨item.productId, p.stock - item.qty, p.lowStockThreshold, false⟩ : LowStockAlertRec)
          ∈ db2.alerts
        ↔ (p.stock - item.qty < p.lowStockThreshold ∨
           (⟨item.productId, p.stock - item.qty, p.lowStockThreshold, false⟩ : LowStockAlertRec)
             ∈ db.alerts)) := by
  intro item hitem p hp
  rcases executeConfirmAux_ok_parts (executeConfirm_ok_aux hok) with
    ⟨resv0, products2, lows, hfind, hcl, halerts⟩
  have hresv0 : resv0 = resv := by
    rw [hres] at hfind
    exact (Option.some.inj hfind).symm
  subst hresv0
  have hperm : List.Perm (sortLineItems resv0.items) resv0.items :=
    List.perm_insertionSort _ resv0.items
  have hsnd : ((sortLineItems resv0.items).map (·.productId)).Nodup :=
    ((hperm.map (·.productId)).nodup_iff).mpr hnd
  have hsmem : item ∈ sortLineItems resv0.items := hperm.mem_iff.mpr hitem
  have hiff := commitLoop_lows_mem hsnd hcl item hsmem p hp
  have hmap : ((⟨item.productId, p.stock - item.qty, p.lowStockThreshold, false⟩ : LowStockAlertRec)
      ∈ lows.map (fun l => (⟨l.1, l.2.1, l.2.2, false⟩ : LowStockAlertRec))) ↔
      (item.productId, p.stock - item.qty, p.lowStockThreshold) ∈ lows := by
    constructor
    · intro hm
      rcases List.mem_map.mp hm with ⟨l, hl, heq⟩
      obtain ⟨a, b, c⟩ := l
      simp only [LowStockAlertRec.mk.injEq] at heq
      obtain ⟨h1, h2, h3, _⟩ := heq
      subst h1
      subst h2
      subst h3
      exact hl
    · intro hm
      exact List.mem_map.mpr ⟨_, hm, rfl⟩
  rw [halerts]
  rw [List.mem_append, hmap, hiff]
  exact or_comm

/-- Witness for C8, scenario 6 of the spec: product E has stock 12 and
threshold 10; confirming a reservation for 5 units leaves stock 7 < 10, and
the low-stock signal `{E, stockAfter 7, threshold 10, processed false}` is in
the store after the confirm. -/
theorem C8_low_stock_signal_witness :
    (⟨"E", 7, 10, false⟩ : LowStockAlertRec) ∈
      (executeConfirm
        ⟨[("E", ⟨"SKU-E", "Prod E", 2000, 12, 5, 10, "img"⟩)],
         [("R1", ⟨"X", .active, [⟨"E", "SKU-E", "Prod E", 2000, 5⟩], addrF, "standard", 600000⟩)],
         [], [], [], [], 1, 2⟩
        "X" "R1" 5).2.alerts :=
  ((C8_low_stock_signal
      ⟨[("E", ⟨"SKU-E", "Prod E", 2000, 12, 5, 10, "img"⟩)],
       [("R1", ⟨"X", .active, [⟨"E", "SKU-E", "Prod E", 2000, 5⟩], addrF, "standard", 600000⟩)],
       [], [], [], [], 1, 2⟩
      "X" "R1" 5 ⟨"1", "created"⟩
      (executeConfirm
        ⟨[("E", ⟨"SKU-E", "Prod E", 2000, 12, 5, 10, "img"⟩)],
         [("R1", ⟨"X", .active, [⟨"E", "SKU-E", "Prod E", 2000, 5⟩], addrF, "standard", 600000⟩)],
         [], [], [], [], 1, 2⟩
        "X" "R1" 5).2
      ⟨"X", .active, [⟨"E", "SKU-E", "Prod E", 2000, 5⟩], addrF, "standard", 600000⟩
      (by decide) (by decide)
      (by
        have h : (executeConfirm
            ⟨[("E", ⟨"SKU-E", "Prod E", 2000, 12, 5, 10, "img"⟩)],
             [("R1", ⟨"X", .active, [⟨"E", "SKU-E", "Prod E", 2000, 5⟩], addrF, "standard", 600000⟩)],
             [], [], [], [], 1, 2⟩
            "X" "R1" 5).1 = .ok ⟨"1", "created"⟩ := by decide
        rw [← h])
      ⟨"E", "SKU-E", "Prod E", 2000, 5⟩ (by decide)
      ⟨"SKU-E", "Prod E", 2000, 12, 5, 10, "img"⟩ (by decide)).mpr
    (Or.inl (by decide)))

/-! ## Claim C9 -/

theorem char_eq_of_toNat_eq {c1 c2 : Char} (h : c1.toNat = c2.toNat) : c1 = c2 :=
  Char.eq_of_val_eq (UInt32.eq_of_toBitVec_eq (BitVec.eq_of_toNat_eq h))

theorem charsLeb_cons (c1 c2 : Char) (r1 r2 : List Char) :
    charsLeb (c1 :: r1) (c2 :: r2) = true ↔
      (c1.toNat < c2.toNat ∨ (c1.toNat = c2.toNat ∧ charsLeb r1 r2 = true)) := by
  have hdef : charsLeb (c1 :: r1) (c2 :: r2)
      = (if c1.toNat < c2.toNat then true
         else if c2.toNat < c1.toNat then false else charsLeb r1 r2) := rfl
  rw [hdef]
  by_cases h : c1.toNat < c2.toNat
  · rw [if_pos h]
    constructor
    · intro _
      exact Or.inl h
    · intro _
      rfl
  · by_cases h2 : c2.toNat < c1.toNat
    · rw [if_neg h, if_pos h2]
      constructor
      · intro hx
        cases hx
      · rintro (hx | ⟨hx, _⟩)
        · exact absurd hx h
        · exact absurd (hx ▸ h2) (by omega)
    · rw [if_neg h, if_neg h2]
      constructor
      · intro hx
        exact Or.inr ⟨by omega, hx⟩
      · rintro (hx | ⟨_, hx⟩)
        · exact absurd hx h
        · exact hx

theorem charsLeb_total : ∀ a b : List Char, charsLeb a b = true ∨ charsLeb b a = true
  | [], _ => Or.inl rfl
  | _ :: _, [] => Or.inr rfl
  | c1 :: r1, c2 :: r2 => by
    rw [charsLeb_cons, charsLeb_cons]
    rcases Nat.lt_trichotomy c1.toNat c2.toNat with h | h | h
    · exact Or.inl (Or.inl h)
    · rcases charsLeb_total r1 r2 with hr | hr
      · exact Or.inl (Or.inr ⟨h, hr⟩)
      · exact Or.inr (Or.inr ⟨h.symm, hr⟩)
    · exact Or.inr (Or.inl h)

theorem charsLeb_trans : ∀ a b c : List Char,
    charsLeb a b = true → charsLeb b c = true → charsLeb a c = true
  | [], _, _ => fun _ _ => rfl
  | _ :: _, [], _ => fun h1 _ => by cases h1
  | _ :: _, _ :: _, [] => fun _ h2 => by cases h2
  | c1 :: r1, c2 :: r2, c3 :: r3 => fun h1 h2 => by
    rw [charsLeb_cons] at h1 h2 ⊢
    rcases h1 with h1 | ⟨e1, h1⟩
    · rcases h2 with h2 | ⟨e2, h2⟩
      · exact Or.inl (by omega)
      · exact Or.inl (by omega)
    · rcases h2 with h2 | ⟨e2, h2⟩
      · exact Or.inl (by omega)
      · exact Or.inr ⟨by omega, charsLeb_trans r1 r2 r3 h1 h2⟩

theorem charsLeb_antisymm : ∀ a b : List Char,
    charsLeb a b = true → charsLeb b a = true → a = b
  | [], [] => fun _ _ => rfl
  | [], _ :: _ => fun _ h2 => by cases h2
  | _ :: _, [] => fun h1 _ => by cases h1
  | c1 :: r1, c2 :: r2 => fun h1 h2 => by
    rw [charsLeb_cons] at h1 h2
    rcases h1 with h1 | ⟨e1, h1⟩
    · rcases h2 with h2 | ⟨e2, h2⟩
      · exact absurd h1 (by omega)
      · exact absurd h1 (by omega)
    · rcases h2 with h2 | ⟨e2, h2⟩
      · exact absurd h2 (by omega)
      · rw [char_eq_of_toNat_eq e1, charsLeb_antisymm r1 r2 h1 h2]

instance : IsTotal String strLe := ⟨fun a b => charsLeb_total a.data b.data⟩

instance : IsTrans String strLe := ⟨fun a b c => charsLeb_trans a.data b.data c.data⟩

instance : IsAntisymm String strLe :=
  ⟨fun a b h1 h2 => String.ext (charsLeb_antisymm a.data b.data h1 h2)⟩

/-- Lookups agree across a permutation of a duplicate-free association list. -/
theorem findA_perm {β : Type} {l1 l2 : List (String × β)} (h : List.Perm l1 l2)
    (hnd : (l1.map Prod.fst).Nodup) : ∀ k, findA l1 k = findA l2 k := by
  induction h with
  | nil =>
    intro k
    rfl
  | cons x h ih =>
    intro k
    rw [findA_cons, findA_cons]
    by_cases hk : x.1 = k
    · rw [if_pos hk, if_pos hk]
    · rw [if_neg hk, if_neg hk]
      exact ih (by
        simp only [List.map_cons, List.nodup_cons] at hnd
        exact hnd.2) k
  | swap x y l =>
    intro k
    rw [findA_cons, findA_cons, findA_cons, findA_cons]
    by_cases hy : y.1 = k
    · by_cases hx : x.1 = k
      · exfalso
        simp only [List.map_cons, List.nodup_cons, List.mem_cons] at hnd
        exact hnd.1 (Or.inl (by rw [hy, hx]))
      · rw [if_pos hy, if_neg hx, if_pos hy]
    · by_cases hx : x.1 = k
      · rw [if_neg hy, if_pos hx, if_pos hx]
      · rw [if_neg hy, if_neg hx, if_neg hx, if_neg hy]
  | trans h1 h2 ih1 ih2 =>
    intro k
    rw [ih1 hnd k, ih2 (((h1.map Prod.fst).nodup_iff).mp hnd) k]

theorem jsonFieldsSize_perm {l1 l2 : List (String × Json)} (h : List.Perm l1 l2) :
    jsonFieldsSize l1 = jsonFieldsSize l2 := by
  induction h with
  | nil => rfl
  | cons x h ih =>
    simp only [jsonFieldsSize]
    omega
  | swap x y l =>
    simp only [jsonFieldsSize]
    omega
  | trans h1 h2 ih1 ih2 => rw [ih1, ih2]

theorem serValF_obj (props : List String) (n : Nat) (fs : List (String × Json)) :
    serValF props (n + 1) (Json.obj fs) =
      "\x7b" ++ commaJoin ((selectProps props fs).map
        (fun kv => quoteJsonString kv.1 ++ ":" ++ serValF props n kv.2)) ++ "\x7d" := rfl

/-- C9 counterexample: the replacer-array form of `JSON.stringify` keeps, at
every nesting level, only keys from the sorted top-level key list; a nested
object whose keys are not top-level keys is serialized as the empty object.
Hence `{a: {x: 1}}` and `{a: {x: 2}}` — payloads that differ in a nested
value — canonicalize to the same text and hash identically, refuting both the
"keys of every object sorted" serialization and the "values nested inside
sub-objects hash differently" consequence. -/
theorem C9_nested_value_collision :
    canonicalStringify [("a", Json.obj [("x", Json.num 1)])] = "\x7b\"a\":\x7b\x7d\x7d" ∧
    requestHash [("a", Json.obj [("x", Json.num 1)])]
      = requestHash [("a", Json.obj [("x", Json.num 2)])] ∧
    Json.num 1 ≠ Json.num 2 := by
  refine ⟨rfl, rfl, ?_⟩
  intro h
  injection h with h1
  exact absurd h1 (by decide)

/-- C9 amended: `requestHash` is the hex-encoded 256-bit SHA-256 of
`JSON.stringify(payload, keys)` where `keys` is the lexicographically sorted
list of top-level keys used as replacer: top-level keys appear sorted, and
every nested object is filtered to (and ordered by) that same top-level key
list, so nested values under keys absent from the top level are dropped.
Consequently two payloads equal up to top-level object-key ordering hash
identically; payloads differing only in such dropped nested values may hash
identically (see the counterexample). -/
theorem C9_requestHash_canonicalization (p1 p2 : List (String × Json))
    (hperm : List.Perm p1 p2) (hnd : (p1.map Prod.fst).Nodup) :
    requestHash p1 = requestHash p2 := by
  have hkeys : List.Perm (p1.map Prod.fst) (p2.map Prod.fst) := hperm.map _
  have hsorted : List.insertionSort strLe (p1.map Prod.fst)
      = List.insertionSort strLe (p2.map Prod.fst) :=
    List.eq_of_perm_of_sorted
      (((List.perm_insertionSort _ _).trans hkeys).trans (List.perm_insertionSort _ _).symm)
      (List.sorted_insertionSort _ _) (List.sorted_insertionSort _ _)
  have hfind : ∀ k, findA p1 k = findA p2 k := findA_perm hperm hnd
  have hsel : ∀ props, selectProps props p1 = selectProps props p2 := by
    intro props
    unfold selectProps
    have hfun : (fun p => (findA p1 p).map (fun v => (p, v)))
        = (fun p => (findA p2 p).map (fun v => (p, v))) :=
      funext (fun p => by rw [hfind p])
    rw [hfun]
  have hsize : jsonSize (Json.obj p1) = jsonSize (Json.obj p2) := by
    unfold jsonSize
    rw [jsonFieldsSize_perm hperm]
  have hsize2 : jsonSize (Json.obj p2) = jsonFieldsSize p2 + 1 := by
    unfold jsonSize
    omega
  unfold requestHash canonicalStringify
  rw [hsorted, hsize, hsize2, serValF_obj, serValF_obj, hsel]

/-- Witness for C9 (amended): reordering the two top-level keys of a flat
payload leaves the hash unchanged. -/
theorem C9_requestHash_canonicalization_witness :
    requestHash [("b", Json.num 2), ("a", Json.str "v")]
      = requestHash [("a", Json.str "v"), ("b", Json.num 2)] :=
  C9_requestHash_canonicalization _ _
    (List.Perm.swap ("a", Json.str "v") ("b", Json.num 2) [])
    (by decide)

/-! ## Claim C10 -/

theorem upsertCartItem_map_pids {items : List CartItem} {pid : String} (qty : Int)
    (hmem : pid ∈ items.map (·.productId)) :
    (upsertCartItem items pid qty).map (·.productId) = items.map (·.productId) := by
  induction items with
  | nil => cases hmem
  | cons hd rest ih =>
    unfold upsertCartItem
    by_cases h : hd.productId = pid
    · rw [if_pos h]
      simp [h]
    · rw [if_neg h]
      simp only [List.map_cons]
      have hmem2 : pid ∈ rest.map (·.productId) := by
        simp only [List.map_cons, List.mem_cons] at hmem
        rcases hmem with hmem | hmem
        · exact absurd hmem.symm h
        · exact hmem
      rw [ih hmem2]

theorem upsertCartItem_find {items : List CartItem} {pid : String} (qty : Int) :
    (upsertCartItem items pid qty).find? (fun it => it.productId = pid)
      = some ⟨pid, qty⟩ := by
  induction items with
  | nil =>
    unfold upsertCartItem
    exact List.find?_cons_of_pos _ (by simp)
  | cons hd rest ih =>
    unfold upsertCartItem
    by_cases h : hd.productId = pid
    · rw [if_pos h]
      exact List.find?_cons_of_pos _ (by simp)
    · rw [if_neg h]
      rw [List.find?_cons_of_neg _ (by simp [h])]
      exact ih

/-- C10: adding a product already present in the caller's cart overwrites the
quantity of the (first) existing line with the new value — it does not add
to it — and never creates a second line for the same product: the list of
product ids of the cart is unchanged. -/
theorem C10_cart_upsert_overwrites (db : DB) (uid pid : String) (qty : Int)
    (items : List CartItem)
    (hq1 : 1 ≤ qty) (hq5 : qty ≤ 5)
    (p : Product) (hp : findA db.products pid = some p)
    (hc : findA db.carts uid = some items)
    (hmem : pid ∈ items.map (·.productId)) :
    addToCart db uid pid qty =
      (.ok (), { db with carts := updateA db.carts uid (fun _ => upsertCartItem items pid qty) }) ∧
    (upsertCartItem items pid qty).map (·.productId) = items.map (·.productId) ∧
    (upsertCartItem items pid qty).find? (fun it => it.productId = pid)
      = some ⟨pid, qty⟩ := by
  refine ⟨?_, upsertCartItem_map_pids qty hmem, upsertCartItem_find qty⟩
  unfold addToCart
  have hvalid : ¬(qty < 1 ∨ qty > 5) := by omega
  rw [if_neg hvalid]
  simp only [hp, hc]

/-- Witness for C10 (the repository's own cart test): adding product A with
quantity 4 to a cart already holding (A, 2) leaves one line (A, 4). -/
theorem C10_cart_upsert_overwrites_witness :
    addToCart ⟨[("A", prodA)], [], [], [("X", [⟨"A", 2⟩])], [], [], 1, 1⟩ "X" "A" 4 =
      (.ok (), ⟨[("A", prodA)], [], [], [("X", [⟨"A", 4⟩])], [], [], 1, 1⟩) ∧
    (upsertCartItem [⟨"A", 2⟩] "A" 4).map (·.productId)
      = ([⟨"A", 2⟩] : List CartItem).map (·.productId) ∧
    (upsertCartItem [⟨"A", 2⟩] "A" 4).find? (fun it => it.productId = "A")
      = some ⟨"A", 4⟩ :=
  C10_cart_upsert_overwrites
    ⟨[("A", prodA)], [], [], [("X", [⟨"A", 2⟩])], [], [], 1, 1⟩ "X" "A" 4
    [⟨"A", 2⟩] (by decide) (by decide) prodA (by decide) (by decide) (by decide)

end SureStock
